import Mathlib

/-!
# Verification of the tanya-lalin ingestion core

Shallow embedding of the document-ingestion pipeline of the repository:

* `src/backend/ingestions/parser/core.py`   (`LegalPDFParser`)
* `src/backend/ingestions/chunker/main.py`  (`tokenize`, `make_chunks`)
* `src/backend/ingestions/parser/validation.py` (the structural validator)

Python strings are modelled as Lean `String` (list of characters); the
character classes used by the code (`str.isdigit`, `\w`, `\s`, `str.strip`,
`str.split`, `int(...)`) are modelled on ASCII, which covers every input
exercised here.  Fallible Python operations (`int(...)` on a non-numeric
string, `list[...]` on a short list, a raised `ValueError`) are modelled with
`Except PyError`.  Regex patterns are modelled extensionally as functions
`String → Option String` returning, like Python's `Pattern.match`, the
matched text (`match[0]`) when the pattern matches at the start of the line.
-/

set_option linter.unusedVariables false

deriving instance DecidableEq for Except

/-- Python exceptions that the modelled code can raise. -/
inductive PyError where
  /-- `ValueError`, e.g. `int()` on a malformed literal or the validator's
  explicit raise. -/
  | valueError (msg : String)
  /-- `IndexError`, e.g. `chunk.split()[1]` on a one-word line. -/
  | indexError
  /-- `TypeError`, e.g. `sorted` comparing `None` with `int`. -/
  | typeError
  deriving DecidableEq, Repr

/-- Python truthiness of an `Optional[int]`: `None` and `0` are falsy. -/
def pyTruthyOptInt : Option Int → Bool
  | none => false
  | some n => n != 0

/-! ## ASCII models of the Python string primitives used by the code -/

/-- Python `str.isdigit()` (ASCII): non-empty and all characters digits. -/
def pyIsdigit (s : String) : Bool :=
  !s.isEmpty && s.toList.all Char.isDigit

/-- Numeric value of a list of decimal digits. -/
def digitsVal (l : List Char) : Option Nat :=
  if !l.isEmpty && l.all Char.isDigit then
    some (l.foldl (fun a c => a * 10 + (c.toNat - '0'.toNat)) 0)
  else
    none

/-- Python `int(s)` for a decimal literal: surrounding whitespace stripped,
optional sign, non-empty digit string; `none` models the raised
`ValueError`.  (Python additionally accepts underscores between digits and
non-ASCII digits; no input considered here uses those.) -/
def pyInt? (s : String) : Option Int :=
  match (s.toList.dropWhile Char.isWhitespace).reverse.dropWhile Char.isWhitespace |>.reverse with
  | '+' :: ds => (digitsVal ds).map (fun n => (n : Int))
  | '-' :: ds => (digitsVal ds).map (fun n => -(n : Int))
  | ds => (digitsVal ds).map (fun n => (n : Int))

/-- `int(s)` at a call site where the code has already established that the
literal is well formed (e.g. after `str.isdigit()`); the default is never
reached there. -/
def pyIntUnsafe (s : String) : Int :=
  (pyInt? s).getD 0

/-- The character-list form of Python `str.strip()` (ASCII whitespace). -/
def stripList (l : List Char) : List Char :=
  ((l.dropWhile Char.isWhitespace).reverse.dropWhile Char.isWhitespace).reverse

/-- Python `str.strip()`. -/
def pyStrip (s : String) : String :=
  String.mk (stripList s.toList)

/-- Helper for `pySplit`: split on whitespace, dropping empty pieces; `cur`
holds the characters of the current word in reverse. -/
def splitWsAux : List Char → List Char → List String
  | [], cur => if cur.isEmpty then [] else [String.mk cur.reverse]
  | c :: rest, cur =>
    if c.isWhitespace then
      if cur.isEmpty then splitWsAux rest []
      else String.mk cur.reverse :: splitWsAux rest []
    else
      splitWsAux rest (c :: cur)

/-- Python `str.split()` with no argument: split on runs of whitespace,
no empty components. -/
def pySplit (s : String) : List String :=
  splitWsAux s.toList []

/-- Helper for `pyReplace`; the fuel starts at the length of the list, which
suffices because each step consumes at least one character. -/
def replaceAux (pat repl : List Char) : Nat → List Char → List Char
  | _, [] => []
  | 0, l => l
  | fuel + 1, c :: rest =>
    if pat.isPrefixOf (c :: rest) then
      repl ++ replaceAux pat repl fuel ((c :: rest).drop pat.length)
    else
      c :: replaceAux pat repl fuel rest

/-- Python `s.replace(pat, repl)`: replace every (left-to-right,
non-overlapping) occurrence.  (For the empty pattern Python interleaves the
replacement; the code only ever replaces non-empty patterns.) -/
def pyReplace (s pat repl : String) : String :=
  if pat.isEmpty then s
  else String.mk (replaceAux pat.toList repl.toList s.toList.length s.toList)

/-! ## Data model (`parser/core.py`) -/

/-- `LegalDocumentItem` (dataclass in `parser/core.py`).  The Python class
annotates `article_number : int` but nothing enforces it; the field holds
whatever `ParseState.article_number` holds at flush time, which starts as
`None`, so it is modelled as `Option Int`. -/
structure LegalDocumentItem where
  article_number : Option Int
  paragraph_number : Option Int
  text : String
  deriving DecidableEq, Repr

/-- A compiled regex, extensionally: `Pattern.match` returning `match[0]`. -/
def Pat : Type := String → Option String

/-- `ParsingRules` (dataclass in `parser/core.py`). -/
structure ParsingRules where
  end_marker : String
  paragraph_pattern : Pat
  ordered_list_pattern : Pat
  article_pattern : Pat
  article_wo_number_pattern : Pat
  section_marker_patterns : List Pat
  skip_patterns : List Pat

/-- `ParseState` (dataclass in `parser/core.py`); the Python field defaults
are captured by `initState` below. -/
structure ParseState where
  article_number : Option Int
  paragraph_number : Option Int
  text : String
  in_article_section : Bool
  prev_was_article_wo_number : Bool
  deriving DecidableEq, Repr

/-- The default-constructed `ParseState()`: all fields at their dataclass
defaults. -/
def initState : ParseState :=
  ⟨none, none, "", false, false⟩

/-- `LegalPDFParser._validate_article_marker_for_article_wo_number`. -/
def validateArticleMarkerForArticleWoNumber (chunk : String) (state : ParseState) : Bool :=
  pyIsdigit chunk &&
    ((state.article_number.isSome && (pyIntUnsafe chunk == state.article_number.getD 0 + 1))
      || (state.article_number.isNone && (pyIntUnsafe chunk == 1)))

/-- `LegalPDFParser._validate_paragraph_marker`. -/
def validateParagraphMarker (paragraph_number_candidate : Int) (state : ParseState) : Bool :=
  (state.paragraph_number.isNone && (paragraph_number_candidate == 1))
    || (state.paragraph_number.isSome
        && (paragraph_number_candidate == state.paragraph_number.getD 0 + 1))

/-- `LegalPDFParser._append_text`. -/
def appendText (buffer chunk : String) (is_ordered_list : Bool) : String :=
  if chunk.isEmpty then ""
  else if is_ordered_list then
    if !buffer.isEmpty then buffer ++ "\n" ++ chunk else chunk
  else
    if !buffer.isEmpty then buffer ++ " " ++ chunk else chunk

/-- `LegalPDFParser._flush_buffer`: append `{article, paragraph, stripped
text}` when the stripped buffer is non-empty. -/
def flushBuffer (legal_document : List LegalDocumentItem) (state : ParseState) :
    List LegalDocumentItem :=
  if pyStrip state.text ≠ "" then
    legal_document ++ [⟨state.article_number, state.paragraph_number, pyStrip state.text⟩]
  else
    legal_document

/-- Extraction of the paragraph-number candidate from the matched text
(`parse`, line 173 of `core.py`):
`int(match[0].replace("Ayat ", "").replace("(", "").replace(")", ""))`. -/
def paragraphCandidate (matched : String) : Option Int :=
  pyInt? (pyReplace (pyReplace (pyReplace matched "Ayat " "") "(" "") ")" "")

/-- Tail of the per-line dispatch of `LegalPDFParser.parse`: the
paragraph-marker rule and the prose-append rule (lines 171–188 of
`core.py`), reached after the higher-priority rules declined the line. -/
def paragraphOrAppend (rules : ParsingRules) (state : ParseState)
    (legal_document : List LegalDocumentItem) (chunk : String) :
    Except PyError (List LegalDocumentItem × ParseState × Bool) :=
  match rules.paragraph_pattern chunk with
  | some matched =>
    match paragraphCandidate matched with
    | none => .error (.valueError "invalid literal for int()")
    | some paragraph_number_candidate =>
      if validateParagraphMarker paragraph_number_candidate state then
        let legal_document :=
          if pyTruthyOptInt state.paragraph_number then flushBuffer legal_document state
          else legal_document
        .ok (legal_document,
          { state with paragraph_number := some paragraph_number_candidate, text := "" }, false)
      else
        .ok (legal_document, state, false)
  | none =>
    if state.in_article_section then
      .ok (legal_document,
        { state with
            text := appendText state.text chunk
              ((rules.ordered_list_pattern chunk).isSome) }, false)
    else
      .ok (legal_document, state, false)

/-- One iteration of the inner `for chunk in page_chunks[...]` loop of
`LegalPDFParser.parse` (lines 123–188 of `core.py`).  The boolean result is
`true` exactly when the loop executes `break` (end-of-section marker). -/
def processChunk (rules : ParsingRules) (state : ParseState)
    (legal_document : List LegalDocumentItem) (chunk : String) :
    Except PyError (List LegalDocumentItem × ParseState × Bool) :=
  if chunk == rules.end_marker then
    .ok (legal_document, state, true)
  else if rules.skip_patterns.any (fun p => (p chunk).isSome) then
    .ok (legal_document, state, false)
  else if rules.section_marker_patterns.any (fun p => (p chunk).isSome) then
    .ok (legal_document, { state with in_article_section := false }, false)
  else if (rules.article_pattern chunk).isSome then
    -- `if state.article_number:` — Python truthiness: no flush for None or 0
    let legal_document :=
      if pyTruthyOptInt state.article_number then flushBuffer legal_document state
      else legal_document
    match (pySplit chunk).get? 1 with
    | none => .error .indexError
    | some w =>
      match pyInt? w with
      | none => .error (.valueError "invalid literal for int()")
      | some n =>
        .ok (legal_document,
          { state with
              article_number := some n, paragraph_number := none, text := "",
              in_article_section := true }, false)
  else if (rules.article_wo_number_pattern chunk).isSome then
    .ok (legal_document, { state with prev_was_article_wo_number := true }, false)
  else if state.prev_was_article_wo_number then
    let state := { state with prev_was_article_wo_number := false }
    if validateArticleMarkerForArticleWoNumber chunk state then
      let legal_document :=
        if pyTruthyOptInt state.article_number then flushBuffer legal_document state
        else legal_document
      .ok (legal_document,
        { state with
            article_number := some (pyIntUnsafe chunk), paragraph_number := none, text := "",
            in_article_section := true }, false)
    else
      -- the bare "Pasal" and the current chunk are re-joined and treated as content
      paragraphOrAppend rules state legal_document ("Pasal " ++ chunk)
  else
    paragraphOrAppend rules state legal_document chunk

/-- The inner loop of `LegalPDFParser.parse` over one page's lines;
a `break` on the end-of-section marker exits only this loop. -/
def parsePage (rules : ParsingRules) :
    List LegalDocumentItem × ParseState → List String →
    Except PyError (List LegalDocumentItem × ParseState)
  | acc, [] => .ok acc
  | (legal_document, state), chunk :: rest => do
    let (legal_document, state, brk) ← processChunk rules state legal_document chunk
    if brk then .ok (legal_document, state)
    else parsePage rules (legal_document, state) rest

/-- The outer loop of `LegalPDFParser.parse` over pages; each page first
drops `header_lines_to_skip` lines. -/
def processPages (rules : ParsingRules) (header_lines_to_skip : Nat) :
    List LegalDocumentItem × ParseState → List (List String) →
    Except PyError (List LegalDocumentItem × ParseState)
  | acc, [] => .ok acc
  | acc, page :: rest => do
    let acc ← parsePage rules acc (page.drop header_lines_to_skip)
    processPages rules header_lines_to_skip acc rest

/-- `LegalPDFParser.parse`: run the page loop from the fresh state, then
flush the last item. -/
def parse (header_lines_to_skip : Nat) (pages : List (List String))
    (parsing_rules : ParsingRules) : Except PyError (List LegalDocumentItem) :=
  (processPages parsing_rules header_lines_to_skip ([], initState) pages).map
    (fun (legal_document, state) => flushBuffer legal_document state)

/-! ## Concrete parsing rules (`ingestions/pdf_patterns.py`), used to
instantiate universally-quantified theorems and to build counterexamples. -/

/-- `ARTICLE_PATTERN = re.compile(r"^Pasal\s\d+$")`. -/
def articlePatF (s : String) : Option String :=
  match s.toList with
  | 'P' :: 'a' :: 's' :: 'a' :: 'l' :: c :: ds =>
    if c.isWhitespace && !ds.isEmpty && ds.all Char.isDigit then some s else none
  | _ => none

/-- `ARTICLE_WO_NUMBER_PATTERN = re.compile(r"^Pasal$")`. -/
def articleWoNumberPatF (s : String) : Option String :=
  if s = "Pasal" then some s else none

/-- `BODY_PARAGRAPH_PATTERN = re.compile(r"^\(\d+\)$")`. -/
def bodyParagraphPatF (s : String) : Option String :=
  match s.toList with
  | '(' :: rest =>
    if rest.getLast? == some ')' && !rest.dropLast.isEmpty && rest.dropLast.all Char.isDigit
    then some s else none
  | _ => none

/-- A pattern that never matches (stands in for an empty pattern list /
a pattern irrelevant to a concrete scenario). -/
def patNone : Pat := fun _ => none

/-- A concrete `ParsingRules` in the shape of the body-section rules of
`pdf_patterns.py` (end marker shortened, no skip/section patterns, no
ordered-list pattern; all claims quantify over arbitrary rules, and these
serve as the concrete instance for witnesses and counterexamples). -/
def testRules : ParsingRules where
  end_marker := "END"
  paragraph_pattern := bodyParagraphPatF
  ordered_list_pattern := patNone
  article_pattern := articlePatF
  article_wo_number_pattern := articleWoNumberPatF
  section_marker_patterns := []
  skip_patterns := []

/-! ## Token chunker (`ingestions/chunker/main.py`) -/

/-- A `\w` character of Python's `re` (ASCII): letter, digit or underscore. -/
def isWordChar (c : Char) : Bool :=
  c.isAlphanum || c == '_'

/-- Scanner for `re.findall(r"\b\w+\b|[^\w\s]", text)`: maximal runs of word
characters are single tokens, every other non-whitespace character is its own
token, whitespace separates.  `cur` holds the current word run in reverse. -/
def tokenizeAux : List Char → List Char → List (List Char)
  | [], cur => if cur.isEmpty then [] else [cur.reverse]
  | c :: rest, cur =>
    if isWordChar c then
      tokenizeAux rest (c :: cur)
    else if c.isWhitespace then
      if cur.isEmpty then tokenizeAux rest [] else cur.reverse :: tokenizeAux rest []
    else
      if cur.isEmpty then [c] :: tokenizeAux rest []
      else cur.reverse :: [c] :: tokenizeAux rest []

/-- `tokenize` of `chunker/main.py`. -/
def tokenize (text : String) : List String :=
  (tokenizeAux text.toList []).map String.mk

/-- Python `" ".join(tokens)`. -/
def joinTokens : List String → String
  | [] => ""
  | [t] => t
  | t :: ts => t ++ " " ++ joinTokens ts

/-- Normalization of one Python slice bound for a list of length `len`. -/
def pySliceIdx (len : Nat) (i : Int) : Nat :=
  if i < 0 then (max ((len : Int) + i) 0).toNat else (min i (len : Int)).toNat

/-- Python `l[a:b]`. -/
def pySlice {α : Type} (l : List α) (a b : Int) : List α :=
  (l.take (pySliceIdx l.length b)).drop (pySliceIdx l.length a)

/-- The `while start_idx < total_tokens` loop of `make_chunks` (lines 86–97 of
`chunker/main.py`).  The loop is not structurally recursive (its progress
depends on `max_chunk_tokens - overlap_tokens`), so it is given explicit
fuel: a result `none` means the fuel was exhausted, and `make_chunks` passes
enough fuel that `none` occurs exactly when the Python loop does not
terminate (see the termination/divergence theorems below). -/
def chunksLoop (tokens : List String) (max_chunk_tokens overlap_tokens : Int) :
    Nat → Int → List String → Option (List String)
  | 0, _, _ => none
  | fuel + 1, start_idx, chunks =>
    if start_idx < (tokens.length : Int) then
      let end_idx := min (start_idx + max_chunk_tokens) (tokens.length : Int)
      let chunks := chunks ++ [joinTokens (pySlice tokens start_idx end_idx)]
      if end_idx ≥ (tokens.length : Int) then some chunks
      else chunksLoop tokens max_chunk_tokens overlap_tokens fuel (end_idx - overlap_tokens) chunks
    else
      some chunks

/-- `make_chunks` of `chunker/main.py` (Python defaults the arguments to
`max_chunk_tokens = 300`, `overlap_tokens = 30`). -/
def make_chunks (text : String) (max_chunk_tokens overlap_tokens : Int) :
    Option (List String) :=
  let tokens := tokenize text
  if (tokens.length : Int) ≤ max_chunk_tokens then some [text]
  else chunksLoop tokens max_chunk_tokens overlap_tokens (tokens.length + 1) 0 []

/-! ## Structural validator (`ingestions/parser/validation.py`) -/

/-- `ParsingValidationReport` (`ingestions/models.py`); the dict
`missing_paragraphs` is modelled as an insertion-ordered association list,
as is the list of duplicate keys. -/
structure ParsingValidationReport where
  total_articles : Nat
  missing_articles : List Int
  missing_paragraphs : List (Option Int × List Int)
  duplicate_article_paragraphs : List (Option Int × Int)
  deriving DecidableEq, Repr

/-- `check_total_articles`: `len({item.article_number for item in legal_document if item})`
(a dataclass instance is always truthy, so `if item` never filters). -/
def check_total_articles (legal_document : List LegalDocumentItem) : Nat :=
  ((legal_document.map (·.article_number)).dedup).length

/-- `check_missing_articles`: ascending list of the members of
`{1..expected} - {observed article numbers}`. -/
def check_missing_articles (legal_document : List LegalDocumentItem)
    (expected_total_articles : Int) : List Int :=
  ((List.range expected_total_articles.toNat).map (fun i => (i : Int) + 1)).filter
    (fun k => !((legal_document.map (·.article_number)).contains (some k)))

/-- `defaultdict(list)` append: `groups[k].append(v)` with dict insertion
order. -/
def addToGroup (groups : List (Option Int × List Int)) (k : Option Int) (v : Int) :
    List (Option Int × List Int) :=
  match groups with
  | [] => [(k, [v])]
  | (k', vs) :: rest =>
    if k' = k then (k', vs ++ [v]) :: rest else (k', vs) :: addToGroup rest k v

/-- The `article_to_paragraphs` accumulation of `check_missing_paragraphs`
(lines 65–68 of `validation.py`): paragraph numbers grouped by article, for
items whose `paragraph_number` is truthy (not `None`, not `0`). -/
def collectParas (legal_document : List LegalDocumentItem) : List (Option Int × List Int) :=
  legal_document.foldl
    (fun groups it =>
      if pyTruthyOptInt it.paragraph_number then
        addToGroup groups it.article_number (it.paragraph_number.getD 0)
      else groups)
    []

/-- Python `max` of a non-empty list (the default is never used at call
sites, which guard non-emptiness). -/
def maxIntList : List Int → Int
  | [] => 0
  | h :: t => t.foldl max h

/-- `range(1, n + 1)` as a list of `Int`. -/
def intRange1 (n : Int) : List Int :=
  (List.range n.toNat).map (fun i => (i : Int) + 1)

/-- Insertion into a list sorted by `le`. -/
def insertSorted {α : Type} (le : α → α → Bool) (x : α) : List α → List α
  | [] => [x]
  | y :: ys => if le x y then x :: y :: ys else y :: insertSorted le x ys

/-- Insertion sort by `le` (models Python `sorted` on lists whose elements
are mutually comparable). -/
def sortBy {α : Type} (le : α → α → Bool) : List α → List α
  | [] => []
  | x :: xs => insertSorted le x (sortBy le xs)

/-- `dict(sorted(article_to_missing.items()))`: sorting the keys.  Python
raises `TypeError` as soon as a `None` key is compared with an `int` key,
which happens exactly when both kinds are present (a `None` key can occur at
most once, so an all-`None` list is a singleton and is never compared). -/
def pySortedDictByKey (l : List (Option Int × List Int)) :
    Except PyError (List (Option Int × List Int)) :=
  if l.any (fun kv => kv.1.isNone) && l.any (fun kv => kv.1.isSome) then
    .error .typeError
  else
    .ok (sortBy (fun a b => decide (a.1.getD 0 ≤ b.1.getD 0)) l)

/-- `check_missing_paragraphs` (`validation.py`, lines 49–86). -/
def check_missing_paragraphs (legal_document : List LegalDocumentItem) :
    Except PyError (List (Option Int × List Int)) :=
  let article_to_paragraphs := collectParas legal_document
  if article_to_paragraphs.isEmpty then
    .error (.valueError "No article found. Unable to check missing paragraphs.")
  else
    let article_to_missing := article_to_paragraphs.filterMap
      (fun kv =>
        if kv.2.isEmpty then none  -- `if not paragraph_numbers: continue` (groups are never empty)
        else
          let missing := (intRange1 (maxIntList kv.2)).filter (fun k => !kv.2.contains k)
          if missing.isEmpty then none else some (kv.1, missing))
    pySortedDictByKey article_to_missing

/-- `counts[key] = counts.get(key, 0) + 1` with dict insertion order. -/
def bumpCount (counts : List ((Option Int × Int) × Nat)) (k : Option Int × Int) :
    List ((Option Int × Int) × Nat) :=
  match counts with
  | [] => [(k, 1)]
  | (k', c) :: rest =>
    if k' = k then (k', c + 1) :: rest else (k', c) :: bumpCount rest k

/-- `check_duplicate_article_paragraphs` (`validation.py`, lines 89–111):
keys are `(article_number, 0 if paragraph_number is None else paragraph_number)`;
`sorted` on the key tuples raises `TypeError` when a `None` first component
meets an `int` one. -/
def check_duplicate_article_paragraphs (legal_document : List LegalDocumentItem) :
    Except PyError (List (Option Int × Int)) :=
  let counts := legal_document.foldl
    (fun cs it => bumpCount cs (it.article_number, it.paragraph_number.getD 0)) []
  let duplicates := (counts.filter (fun kc => kc.2 > 1)).map (·.1)
  if duplicates.any (fun k => k.1.isNone) && duplicates.any (fun k => k.1.isSome) then
    .error .typeError
  else
    .ok (sortBy
      (fun a b => decide (a.1.getD 0 < b.1.getD 0 ∨ (a.1.getD 0 = b.1.getD 0 ∧ a.2 ≤ b.2)))
      duplicates)

/-- `validate_result` (`validation.py`, lines 114–152): the four checks run
in source order; an exception from `check_missing_paragraphs` propagates to
the caller before the remaining work. -/
def validate_result (legal_document : List LegalDocumentItem) (legal_text_type : String)
    (expected_total_articles : Int) : Except PyError ParsingValidationReport := do
  let total_articles := check_total_articles legal_document
  let missing_articles := check_missing_articles legal_document expected_total_articles
  let missing_paragraphs ← check_missing_paragraphs legal_document
  let duplicate_article_paragraphs ← check_duplicate_article_paragraphs legal_document
  return { total_articles := total_articles, missing_articles := missing_articles,
           missing_paragraphs := missing_paragraphs,
           duplicate_article_paragraphs := duplicate_article_paragraphs }

/-- First-match lookup in an association list (the read view of a Python
dict whose keys are unique). -/
def lookupAssoc {β : Type} (l : List (Option Int × β)) (k : Option Int) : Option β :=
  match l with
  | [] => none
  | (k', v) :: rest => if k' = k then some v else lookupAssoc rest k

/-! ## Derived notions used to state the claims -/

/-- Shape of one token of `tokenize`: a non-empty run of word characters, or
a single character that is neither a word character nor whitespace. -/
def validTokenChars (t : List Char) : Bool :=
  (!t.isEmpty && t.all isWordChar)
    || (t.length == 1 && t.all (fun c => !isWordChar c && !c.isWhitespace))

/-- Character-list form of `" ".join`: used to relate `joinTokens` to the
token scanner. -/
def joinCharTokens : List (List Char) → List Char
  | [] => []
  | [t] => t
  | t :: ts => t ++ ' ' :: joinCharTokens ts

/-- Order on items by article number, for the monotonicity claim: when both
items carry an article number the numbers must be ordered; an absent
article number imposes no constraint. -/
def articleLe (i j : LegalDocumentItem) : Bool :=
  match i.article_number, j.article_number with
  | some x, some y => decide (x ≤ y)
  | _, _ => true

/-- The paragraph numbers observed for article `a`: values of the truthy
(non-null, non-zero) paragraph numbers of the items with that article
number, in document order. -/
def observedParas (legal_document : List LegalDocumentItem) (a : Int) : List Int :=
  legal_document.filterMap (fun it =>
    if it.article_number = some a && pyTruthyOptInt it.paragraph_number then
      some (it.paragraph_number.getD 0)
    else none)

/-- Specification-side description of the paragraph-gap check, written from
the claim's words: for an article, the values in
`1..max(observed paragraph numbers)` that were not observed. -/
def specMissingParagraphs (legal_document : List LegalDocumentItem) (a : Int) : List Int :=
  (intRange1 (maxIntList (observedParas legal_document a))).filter
    (fun k => !(observedParas legal_document a).contains k)

/-- Invariant used in the proof of the (amended) monotonicity claim: the
buffer and the in-article flag imply a present article number, every emitted
item's article number is bounded by the current one, and the emitted items
are pairwise ordered. -/
def MonoInv (st : ParseState) (doc : List LegalDocumentItem) : Prop :=
  (st.text ≠ "" → st.article_number.isSome = true) ∧
  (st.in_article_section = true → st.article_number.isSome = true) ∧
  (∀ it ∈ doc, ∀ x, it.article_number = some x → ∃ y, st.article_number = some y ∧ x ≤ y) ∧
  List.Pairwise (fun i j => articleLe i j = true) doc

/-! # Theorems

## Whitespace-stripping helper lemmas -/

theorem reverse_dropWhile_reverse_cons {α : Type} [DecidableEq α] (p : α → Bool) (c : α)
    (t : List α) :
    ((c :: t).reverse.dropWhile p).reverse =
      if t.reverse.dropWhile p = [] then (if p c then [] else [c])
      else c :: (t.reverse.dropWhile p).reverse := by
  rw [List.reverse_cons, List.dropWhile_append]
  by_cases he : t.reverse.dropWhile p = []
  · rw [if_pos (by simp [he]), if_pos he]
    by_cases hc : p c <;> simp [List.dropWhile_cons, hc]
  · rw [if_neg (by simp [he]), if_neg he]
    simp

theorem dropWhile_front_back_comm {α : Type} [DecidableEq α] (p : α → Bool) (l : List α) :
    ((l.dropWhile p).reverse.dropWhile p).reverse =
      ((l.reverse.dropWhile p).reverse).dropWhile p := by
  induction l with
  | nil => rfl
  | cons c t ih =>
    rw [List.dropWhile_cons]
    by_cases hc : p c
    · rw [if_pos hc, ih, reverse_dropWhile_reverse_cons]
      by_cases he : t.reverse.dropWhile p = []
      · rw [if_pos he, if_pos hc, he]
        simp
      · rw [if_neg he, List.dropWhile_cons, if_pos hc]
    · rw [if_neg hc, reverse_dropWhile_reverse_cons]
      by_cases he : t.reverse.dropWhile p = []
      · rw [if_pos he, if_neg hc, List.dropWhile_cons, if_neg hc]
      · rw [if_neg he, List.dropWhile_cons, if_neg hc]

theorem stripList_idem (l : List Char) : stripList (stripList l) = stripList l := by
  unfold stripList
  rw [dropWhile_front_back_comm, List.reverse_reverse, List.dropWhile_idempotent,
    ← dropWhile_front_back_comm, List.dropWhile_idempotent]

theorem pyStrip_idem (s : String) : pyStrip (pyStrip s) = pyStrip s := by
  unfold pyStrip
  exact congrArg String.mk (stripList_idem s.toList)

/-! ## Structure lemmas for the parser's output accumulation -/

theorem flushBuffer_flag_irrel (doc : List LegalDocumentItem) (st : ParseState) (b : Bool) :
    flushBuffer doc { st with prev_was_article_wo_number := b } = flushBuffer doc st := rfl

theorem mem_flushBuffer (doc : List LegalDocumentItem) (st : ParseState) (it : LegalDocumentItem)
    (h : it ∈ flushBuffer doc st) :
    it ∈ doc ∨ (it.text = pyStrip st.text ∧ pyStrip st.text ≠ "") := by
  unfold flushBuffer at h
  split at h
  · rcases List.mem_append.mp h with h1 | h1
    · exact Or.inl h1
    · rename_i hne
      rw [List.mem_singleton.mp h1]
      exact Or.inr ⟨rfl, hne⟩
  · exact Or.inl h

theorem paragraphOrAppend_doc (rules : ParsingRules) (st : ParseState)
    (doc : List LegalDocumentItem) (chunk : String)
    (out : List LegalDocumentItem × ParseState × Bool)
    (h : paragraphOrAppend rules st doc chunk = .ok out) :
    out.1 = doc ∨ out.1 = flushBuffer doc st := by
  unfold paragraphOrAppend at h
  split at h
  · split at h
    · simp at h
    · split at h
      · cases h
        dsimp only
        split
        · exact Or.inr rfl
        · exact Or.inl rfl
      · cases h
        exact Or.inl rfl
  · split at h <;> cases h <;> exact Or.inl rfl

theorem processChunk_doc (rules : ParsingRules) (st : ParseState)
    (doc : List LegalDocumentItem) (chunk : String)
    (out : List LegalDocumentItem × ParseState × Bool)
    (h : processChunk rules st doc chunk = .ok out) :
    out.1 = doc ∨ out.1 = flushBuffer doc st := by
  simp only [processChunk] at h
  split at h
  · cases h; exact Or.inl rfl
  · split at h
    · cases h; exact Or.inl rfl
    · split at h
      · cases h; exact Or.inl rfl
      · split at h
        · -- numbered-article branch: two fallible steps, then the conditional flush
          split at h
          · simp at h
          · split at h
            · simp at h
            · split at h <;> (cases h; simp)
        · split at h
          · cases h; exact Or.inl rfl
          · split at h
            · -- bare-marker lookahead branch
              split at h
              · split at h <;> (cases h; simp [flushBuffer_flag_irrel])
              · rcases paragraphOrAppend_doc _ _ _ _ _ h with h1 | h1
                · exact Or.inl h1
                · rw [flushBuffer_flag_irrel _ st false] at h1
                  exact Or.inr h1
            · exact paragraphOrAppend_doc _ _ _ _ _ h

theorem parsePage_text_inv (rules : ParsingRules) (lines : List String) :
    ∀ doc st doc' st', parsePage rules (doc, st) lines = .ok (doc', st') →
      (∀ it ∈ doc, pyStrip it.text = it.text ∧ it.text ≠ "") →
      (∀ it ∈ doc', pyStrip it.text = it.text ∧ it.text ≠ "") := by
  induction lines with
  | nil =>
    intro doc st doc' st' h hq
    simp only [parsePage, Except.ok.injEq, Prod.mk.injEq] at h
    rw [← h.1]
    exact hq
  | cons c cs ih =>
    intro doc st doc' st' h hq
    rw [parsePage] at h
    cases hpc : processChunk rules st doc c with
    | error e => rw [hpc] at h; simp [bind, Except.bind] at h
    | ok x =>
      obtain ⟨doc1, st1, brk⟩ := x
      rw [hpc] at h
      simp only [bind, Except.bind] at h
      have hq1 : ∀ it ∈ doc1, pyStrip it.text = it.text ∧ it.text ≠ "" := by
        intro it hit
        rcases processChunk_doc rules st doc c (doc1, st1, brk) hpc with h1 | h1
        · exact hq it (by rw [← h1]; exact hit)
        · rcases mem_flushBuffer doc st it (by rw [← h1]; exact hit) with h2 | h2
          · exact hq it h2
        --
          · refine ⟨by rw [h2.1, pyStrip_idem], by rw [h2.1]; exact h2.2⟩
      cases brk with
      | true =>
        simp only [if_true] at h
        cases h
        exact hq1
      | false =>
        simp only [Bool.false_eq_true, if_false] at h
        exact ih doc1 st1 doc' st' h hq1

theorem processPages_text_inv (rules : ParsingRules) (header : Nat) (pages : List (List String)) :
    ∀ doc st doc' st', processPages rules header (doc, st) pages = .ok (doc', st') →
      (∀ it ∈ doc, pyStrip it.text = it.text ∧ it.text ≠ "") →
      (∀ it ∈ doc', pyStrip it.text = it.text ∧ it.text ≠ "") := by
  induction pages with
  | nil =>
    intro doc st doc' st' h hq
    simp only [processPages, Except.ok.injEq, Prod.mk.injEq] at h
    rw [← h.1]
    exact hq
  | cons pg rest ih =>
    intro doc st doc' st' h hq
    rw [processPages] at h
    cases hpp : parsePage rules (doc, st) (pg.drop header) with
    | error e => rw [hpp] at h; simp [bind, Except.bind] at h
    | ok acc1 =>
      obtain ⟨doc1, st1⟩ := acc1
      rw [hpp] at h
      simp only [bind, Except.bind] at h
      exact ih doc1 st1 doc' st' h (parsePage_text_inv rules (pg.drop header) doc st doc1 st1 hpp hq)

/-- **C9** — every `LegalDocumentItem` the parser emits has non-empty text
even after whitespace trimming: `_flush_buffer` appends an item only when the
stripped buffer is non-empty (and stores the stripped text), so `parse` never
returns an item whose text is empty or whitespace-only. -/
theorem parse_emits_only_nonblank_items (header : Nat) (pages : List (List String))
    (rules : ParsingRules) (items : List LegalDocumentItem)
    (h : parse header pages rules = .ok items) :
    ∀ it ∈ items, it.text ≠ "" ∧ pyStrip it.text ≠ "" := by
  unfold parse at h
  cases hpp : processPages rules header ([], initState) pages with
  | error e =>
    rw [hpp] at h
    exact absurd h (by simp [Except.map])
  | ok acc =>
    obtain ⟨doc, st⟩ := acc
    rw [hpp] at h
    replace h : flushBuffer doc st = items := by
      simpa [Except.map] using h
    have hdoc : ∀ it ∈ doc, pyStrip it.text = it.text ∧ it.text ≠ "" :=
      processPages_text_inv rules header pages [] initState doc st hpp (by intro it hit; cases hit)
    intro it hit
    rw [← h] at hit
    rcases mem_flushBuffer doc st it hit with h1 | h1
    · have := hdoc it h1
      exact ⟨this.2, by rw [this.1]; exact this.2⟩
    · refine ⟨by rw [h1.1]; exact h1.2, by rw [h1.1, pyStrip_idem]; exact h1.2⟩

/-- Witness for C9 at a concrete input. -/
theorem parse_emits_only_nonblank_items_witness :
    parse 0 [["Pasal 1", "hello"]] testRules = .ok [⟨some 1, none, "hello"⟩] ∧
    ∀ it ∈ [(⟨some 1, none, "hello"⟩ : LegalDocumentItem)], it.text ≠ "" ∧ pyStrip it.text ≠ "" :=
  ⟨by decide,
   parse_emits_only_nonblank_items 0 [["Pasal 1", "hello"]] testRules
     [⟨some 1, none, "hello"⟩] (by decide)⟩

/-! ## C1: behaviour at the end-of-section marker -/

theorem parsePage_end_marker (rules : ParsingRules) (acc : List LegalDocumentItem × ParseState)
    (tail : List String) :
    parsePage rules acc (rules.end_marker :: tail) = .ok acc := by
  obtain ⟨doc, st⟩ := acc
  rw [parsePage]
  simp [processChunk, bind, Except.bind]

/-- **C1** (amended) — a line equal to the end-of-section marker stops the
consumption of the *current page* only: the rest of that page's lines are
ignored and the state is left untouched, but parsing resumes with the next
page (the `break` in `parse` exits only the inner per-page loop), so
subsequent pages are still consumed.  The original claim — that no line of
any subsequent page is consumed — is refuted by
`parse_consumes_pages_after_end_marker`. -/
theorem end_marker_stops_only_current_page (rules : ParsingRules) (header : Nat)
    (acc : List LegalDocumentItem × ParseState) (pg tail : List String)
    (rest : List (List String)) (h : pg.drop header = rules.end_marker :: tail) :
    parsePage rules acc (rules.end_marker :: tail) = .ok acc ∧
    processPages rules header acc (pg :: rest) = processPages rules header acc rest := by
  refine ⟨parsePage_end_marker rules acc tail, ?_⟩
  rw [processPages, h, parsePage_end_marker rules acc tail]
  simp [bind, Except.bind]

/-- Witness for the amended C1 at a concrete input. -/
theorem end_marker_stops_only_current_page_witness :
    parsePage testRules ([], initState) ["END", "junk"] = .ok ([], initState) ∧
    processPages testRules 0 ([], initState) [["END", "junk"], ["tail"]] =
      processPages testRules 0 ([], initState) [["tail"]] :=
  end_marker_stops_only_current_page testRules 0 ([], initState) ["END", "junk"] ["junk"]
    [["tail"]] (by decide)

/-- **C1** counterexample — with the end marker `"END"` as the only line of
page one, the parser still consumes page two (`"Pasal 1"`, `"sometext"`) and
emits an item whose text `"sometext"` originates after the marker; parsing
the marker page alone yields no items, so the extra item comes entirely from
the post-marker page. -/
theorem parse_consumes_pages_after_end_marker :
    parse 0 [["END"], ["Pasal 1", "sometext"]] testRules = .ok [⟨some 1, none, "sometext"⟩] ∧
    parse 0 [["END"]] testRules = .ok [] := by
  constructor <;> decide

/-! ## C6: rejected paragraph markers are consumed without effect -/

/-- **C6** — a line matching the paragraph-marker pattern whose numeric
candidate fails the sequential validation (neither `1` with no paragraph
open nor the previous paragraph number plus one) is consumed with no effect:
no error, no item emitted, and article number, paragraph number, buffer and
flags all unchanged — the line's text can therefore appear in no output
item.  (The hypotheses state that the line reaches the paragraph rule: it is
not the end marker and matches no higher-priority pattern, and no bare-marker
lookahead is pending.) -/
theorem rejected_paragraph_marker_is_discarded (rules : ParsingRules) (st : ParseState)
    (doc : List LegalDocumentItem) (chunk matched : String) (cand : Int)
    (hend : chunk ≠ rules.end_marker)
    (hskip : ∀ p ∈ rules.skip_patterns, p chunk = none)
    (hsec : ∀ p ∈ rules.section_marker_patterns, p chunk = none)
    (hart : rules.article_pattern chunk = none)
    (hwo : rules.article_wo_number_pattern chunk = none)
    (hflag : st.prev_was_article_wo_number = false)
    (hm : rules.paragraph_pattern chunk = some matched)
    (hcand : paragraphCandidate matched = some cand)
    (hinvalid : validateParagraphMarker cand st = false) :
    processChunk rules st doc chunk = .ok (doc, st, false) := by
  have h1 : (chunk == rules.end_marker) = false := by
    simp [hend]
  have h2 : (rules.skip_patterns.any fun p => (p chunk).isSome) = false := by
    rw [List.any_eq_false]
    intro p hp
    simp [hskip p hp]
  have h3 : (rules.section_marker_patterns.any fun p => (p chunk).isSome) = false := by
    rw [List.any_eq_false]
    intro p hp
    simp [hsec p hp]
  simp only [processChunk, h1, h2, h3, hart, hwo, hflag, Option.isSome_none,
    Bool.false_eq_true, if_false, paragraphOrAppend, hm, hcand, hinvalid]

/-- Witness for C6: after paragraphs `[1, 2]`, the line `"(2)"` (candidate
`2`, duplicate rather than sequential) is consumed without any change. -/
theorem rejected_paragraph_marker_is_discarded_witness :
    processChunk testRules ⟨some 1, some 2, "text", true, false⟩ [] "(2)" =
      .ok ([], ⟨some 1, some 2, "text", true, false⟩, false) :=
  rejected_paragraph_marker_is_discarded testRules ⟨some 1, some 2, "text", true, false⟩ []
    "(2)" "(2)" 2 (by decide) (fun p hp => absurd hp (List.not_mem_nil p))
    (fun p hp => absurd hp (List.not_mem_nil p)) (by decide) (by decide) rfl
    (by decide) (by decide) (by decide)

/-! ## C5: the bare-article-marker lookahead -/

/-- **C5** — on a line matching the bare article-marker pattern (reaching
that rule: no higher-priority rule matches) the parser only records the
lookahead flag.  On the following line (again reaching the lookahead rule)
the flag is cleared and: if the line is a pure digit string whose value is
the previous article number plus one (`1`, i.e. `getD 0 + 1`, when no
article has been seen), the open buffer is flushed (when the current article
number is truthy) and a new article with that number is started; otherwise
the keyword `"Pasal "` is re-prepended and the combined line is processed as
ordinary content (paragraph rule, then prose append). -/
theorem bare_article_marker_lookahead (rules : ParsingRules) (st : ParseState)
    (doc : List LegalDocumentItem) (b c : String)
    (hbend : b ≠ rules.end_marker)
    (hbskip : ∀ p ∈ rules.skip_patterns, p b = none)
    (hbsec : ∀ p ∈ rules.section_marker_patterns, p b = none)
    (hbart : rules.article_pattern b = none)
    (hbwo : (rules.article_wo_number_pattern b).isSome = true)
    (hcend : c ≠ rules.end_marker)
    (hcskip : ∀ p ∈ rules.skip_patterns, p c = none)
    (hcsec : ∀ p ∈ rules.section_marker_patterns, p c = none)
    (hcart : rules.article_pattern c = none)
    (hcwo : rules.article_wo_number_pattern c = none) :
    processChunk rules st doc b =
      .ok (doc, { st with prev_was_article_wo_number := true }, false) ∧
    (pyIsdigit c = true → pyIntUnsafe c = st.article_number.getD 0 + 1 →
      processChunk rules { st with prev_was_article_wo_number := true } doc c =
        .ok ((if pyTruthyOptInt st.article_number then flushBuffer doc st else doc),
          ⟨some (st.article_number.getD 0 + 1), none, "", true, false⟩, false)) ∧
    (validateArticleMarkerForArticleWoNumber c
        { st with prev_was_article_wo_number := false } = false →
      processChunk rules { st with prev_was_article_wo_number := true } doc c =
        paragraphOrAppend rules { st with prev_was_article_wo_number := false } doc
          ("Pasal " ++ c)) := by
  have hb1 : (b == rules.end_marker) = false := by simp [hbend]
  have hb2 : (rules.skip_patterns.any fun p => (p b).isSome) = false := by
    rw [List.any_eq_false]; intro p hp; simp [hbskip p hp]
  have hb3 : (rules.section_marker_patterns.any fun p => (p b).isSome) = false := by
    rw [List.any_eq_false]; intro p hp; simp [hbsec p hp]
  have hc1 : (c == rules.end_marker) = false := by simp [hcend]
  have hc2 : (rules.skip_patterns.any fun p => (p c).isSome) = false := by
    rw [List.any_eq_false]; intro p hp; simp [hcskip p hp]
  have hc3 : (rules.section_marker_patterns.any fun p => (p c).isSome) = false := by
    rw [List.any_eq_false]; intro p hp; simp [hcsec p hp]
  refine ⟨?_, ?_, ?_⟩
  · simp only [processChunk, hb1, hb2, hb3, hbart, hbwo, Option.isSome_none,
      Bool.false_eq_true, if_false, if_true]
  · intro hd hv
    have hval : validateArticleMarkerForArticleWoNumber c
        { st with prev_was_article_wo_number := false } = true := by
      cases ha : st.article_number with
      | none => simp [validateArticleMarkerForArticleWoNumber, hd, hv, ha]
      | some a => simp [validateArticleMarkerForArticleWoNumber, hd, hv, ha]
    simp only [processChunk, hc1, hc2, hc3, hcart, hcwo, Option.isSome_none,
      Bool.false_eq_true, if_false, hval, if_true, hv]
    rw [flushBuffer_flag_irrel]
  · intro hinval
    simp only [processChunk, hc1, hc2, hc3, hcart, hcwo, Option.isSome_none,
      Bool.false_eq_true, if_false, hinval]
    simp

/-- Witness for C5: the two concrete scenarios from the specification — a
bare `"Pasal"` then `"6"` with previous article `5` starts article 6
(flushing the buffer), while the same two lines with previous article `2`
turn into the prose `"Pasal 6"` appended to the open buffer. -/
theorem bare_article_marker_lookahead_witness :
    (processChunk testRules ⟨some 5, none, "buf", true, false⟩ [] "Pasal" =
      .ok ([], ⟨some 5, none, "buf", true, true⟩, false)) ∧
    (processChunk testRules ⟨some 5, none, "buf", true, true⟩ [] "6" =
      .ok ([⟨some 5, none, "buf"⟩], ⟨some 6, none, "", true, false⟩, false)) ∧
    (processChunk testRules ⟨some 2, none, "buf", true, true⟩ [] "6" =
      .ok ([], ⟨some 2, none, "buf Pasal 6", true, false⟩, false)) := by
  have h5 := bare_article_marker_lookahead testRules ⟨some 5, none, "buf", true, false⟩ []
    "Pasal" "6" (by decide) (fun p hp => absurd hp (List.not_mem_nil p))
    (fun p hp => absurd hp (List.not_mem_nil p)) (by decide) (by decide) (by decide)
    (fun p hp => absurd hp (List.not_mem_nil p)) (fun p hp => absurd hp (List.not_mem_nil p))
    (by decide) (by decide)
  have h2 := bare_article_marker_lookahead testRules ⟨some 2, none, "buf", true, false⟩ []
    "Pasal" "6" (by decide) (fun p hp => absurd hp (List.not_mem_nil p))
    (fun p hp => absurd hp (List.not_mem_nil p)) (by decide) (by decide) (by decide)
    (fun p hp => absurd hp (List.not_mem_nil p)) (fun p hp => absurd hp (List.not_mem_nil p))
    (by decide) (by decide)
  refine ⟨h5.1, ?_, ?_⟩
  · have := h5.2.1 (by decide) (by decide)
    exact this.trans (by decide)
  · have := h2.2.2 (by decide)
    exact this.trans (by decide)

/-! ## C3: `validate_result` and the propagating paragraph-check error -/

theorem collect_fold_of_all_falsy (doc : List LegalDocumentItem) :
    ∀ g, (∀ it ∈ doc, pyTruthyOptInt it.paragraph_number = false) →
      doc.foldl (fun groups it =>
        if pyTruthyOptInt it.paragraph_number then
          addToGroup groups it.article_number (it.paragraph_number.getD 0)
        else groups) g = g := by
  induction doc with
  | nil => intro g h; rfl
  | cons it rest ih =>
    intro g h
    rw [List.foldl_cons, if_neg (by simp [h it (List.mem_cons_self it rest)])]
    exact ih g (fun x hx => h x (List.mem_cons_of_mem it hx))

theorem check_missing_paragraphs_error_of_all_falsy (doc : List LegalDocumentItem)
    (h : ∀ it ∈ doc, pyTruthyOptInt it.paragraph_number = false) :
    check_missing_paragraphs doc =
      .error (.valueError "No article found. Unable to check missing paragraphs.") := by
  have hc : collectParas doc = [] := collect_fold_of_all_falsy doc [] h
  simp [check_missing_paragraphs, hc]

/-- **C3** (amended) — `validate_result` runs its checks in source order and
returns the full report exactly when every fallible check succeeds; the
error raised by `check_missing_paragraphs` on an input with no truthy
paragraph number propagates out of `validate_result`, so in that case the
caller receives the exception and not the already-computed article-level
diagnostics.  The original claim (the caller always receives the full
report) is refuted by `validate_result_raises_counterexample`. -/
theorem validate_result_propagates_paragraph_error (doc : List LegalDocumentItem)
    (lt : String) (expected : Int) :
    (∀ e, check_missing_paragraphs doc = .error e →
      validate_result doc lt expected = .error e) ∧
    (∀ mp dup, check_missing_paragraphs doc = .ok mp →
      check_duplicate_article_paragraphs doc = .ok dup →
      validate_result doc lt expected =
        .ok ⟨check_total_articles doc, check_missing_articles doc expected, mp, dup⟩) ∧
    ((∀ it ∈ doc, pyTruthyOptInt it.paragraph_number = false) →
      validate_result doc lt expected =
        .error (.valueError "No article found. Unable to check missing paragraphs.")) := by
  refine ⟨?_, ?_, ?_⟩
  · intro e he
    simp [validate_result, he, bind, Except.bind]
  · intro mp dup hmp hdup
    simp [validate_result, hmp, hdup, bind, Except.bind, pure, Except.pure]
  · intro hall
    simp [validate_result, check_missing_paragraphs_error_of_all_falsy doc hall,
      bind, Except.bind]

/-- Witness for the amended C3 at concrete inputs: one document where all
checks succeed and the full report is returned, one where the paragraph
check's error propagates. -/
theorem validate_result_propagates_paragraph_error_witness :
    validate_result [⟨some 1, some 1, "t"⟩] "body" 1 = .ok ⟨1, [], [], []⟩ ∧
    validate_result [⟨some 2, none, "u"⟩] "body" 1 =
      .error (.valueError "No article found. Unable to check missing paragraphs.") :=
  ⟨(validate_result_propagates_paragraph_error [⟨some 1, some 1, "t"⟩] "body" 1).2.1 [] []
      (by decide) (by decide),
   (validate_result_propagates_paragraph_error [⟨some 2, none, "u"⟩] "body" 1).2.2
      (by decide)⟩

/-- **C3** counterexample — on a one-item document whose only paragraph
number is null, `validate_result` returns no report at all: the error from
`check_missing_paragraphs` propagates, so the caller never receives the
already-computed `total_articles` and `missing_articles` diagnostics. -/
theorem validate_result_raises_counterexample :
    validate_result [⟨some 1, none, "t"⟩] "body" 1 =
      .error (.valueError "No article found. Unable to check missing paragraphs.") := by
  decide


/-! ## Tokenizer lemmas (C7, C8) -/

theorem tokenizeAux_word_run (w : List Char) :
    ∀ (rest cur : List Char), w.all isWordChar = true →
      tokenizeAux (w ++ rest) cur = tokenizeAux rest (w.reverse ++ cur) := by
  induction w with
  | nil => intro rest cur _; simp
  | cons c w' ih =>
    intro rest cur hw
    simp only [List.all_cons, Bool.and_eq_true] at hw
    show tokenizeAux (c :: (w' ++ rest)) cur = tokenizeAux rest ((c :: w').reverse ++ cur)
    simp only [tokenizeAux, hw.1, if_true]
    rw [ih rest (c :: cur) hw.2]
    simp

theorem tokenizeAux_word_alone (w : List Char) (hall : w.all isWordChar = true)
    (hne : w ≠ []) : tokenizeAux w [] = [w] := by
  conv_lhs => rw [← List.append_nil w]
  rw [tokenizeAux_word_run w [] [] hall]
  simp only [tokenizeAux, List.append_nil, List.isEmpty_eq_true, List.reverse_eq_nil_iff]
  rw [if_neg hne]
  simp

theorem tokenizeAux_word_then_space (w J : List Char) (hall : w.all isWordChar = true)
    (hne : w ≠ []) : tokenizeAux (w ++ ' ' :: J) [] = w :: tokenizeAux J [] := by
  rw [tokenizeAux_word_run w (' ' :: J) [] hall]
  simp only [tokenizeAux, List.append_nil, List.isEmpty_eq_true, List.reverse_eq_nil_iff]
  rw [if_neg (by decide), if_pos (by decide), if_neg hne]
  simp

theorem tokenizeAux_space (J : List Char) : tokenizeAux (' ' :: J) [] = tokenizeAux J [] := by
  simp only [tokenizeAux]
  rw [if_neg (by decide), if_pos (by decide), if_pos (by decide)]

theorem tokenizeAux_punct (c : Char) (l : List Char) (hcw : isWordChar c = false)
    (hcs : c.isWhitespace = false) : tokenizeAux (c :: l) [] = [c] :: tokenizeAux l [] := by
  simp only [tokenizeAux, hcw, hcs, Bool.false_eq_true, if_false]
  rw [if_pos (by decide)]

theorem validTokenChars_cases (u : List Char) (h : validTokenChars u = true) :
    (u ≠ [] ∧ u.all isWordChar = true) ∨
      (∃ c, u = [c] ∧ isWordChar c = false ∧ c.isWhitespace = false) := by
  unfold validTokenChars at h
  rcases Bool.or_eq_true_iff.mp h with h1 | h1
  · rcases Bool.and_eq_true_iff.mp h1 with ⟨h2, h3⟩
    left
    refine ⟨?_, h3⟩
    intro hnil
    rw [hnil] at h2
    simp at h2
  · rcases Bool.and_eq_true_iff.mp h1 with ⟨h2, h3⟩
    right
    match u, h2 with
    | [c], _ =>
      simp only [List.all_cons, List.all_nil, Bool.and_true, Bool.and_eq_true] at h3
      exact ⟨c, rfl, by simp_all, by simp_all⟩

theorem tokenizeAux_joinCharTokens (ts : List (List Char)) :
    (∀ t ∈ ts, validTokenChars t = true) → tokenizeAux (joinCharTokens ts) [] = ts := by
  induction ts with
  | nil => intro _; rfl
  | cons t ts' ih =>
    intro hv
    have hvt := hv t (List.mem_cons_self t ts')
    rcases ts' with _ | ⟨t2, rest⟩
    · show tokenizeAux t [] = [t]
      rcases validTokenChars_cases t hvt with ⟨hne, hall⟩ | ⟨c, hc, hcw, hcs⟩
      · exact tokenizeAux_word_alone t hall hne
      · rw [hc, tokenizeAux_punct c [] hcw hcs]
        rfl
    · have ih' := ih (fun x hx => hv x (List.mem_cons_of_mem t hx))
      show tokenizeAux (t ++ ' ' :: joinCharTokens (t2 :: rest)) [] = t :: t2 :: rest
      rcases validTokenChars_cases t hvt with ⟨hne, hall⟩ | ⟨c, hc, hcw, hcs⟩
      · rw [tokenizeAux_word_then_space t _ hall hne, ih']
      · rw [hc]
        show tokenizeAux (c :: (' ' :: joinCharTokens (t2 :: rest))) [] = [c] :: t2 :: rest
        rw [tokenizeAux_punct c _ hcw hcs, tokenizeAux_space, ih']

theorem joinTokens_toList (ts : List String) :
    (joinTokens ts).toList = joinCharTokens (ts.map String.toList) := by
  induction ts with
  | nil => rfl
  | cons t ts' ih =>
    rcases ts' with _ | ⟨t2, rest⟩
    · rfl
    · show ((t ++ " ") ++ joinTokens (t2 :: rest)).data =
        t.data ++ ' ' :: joinCharTokens ((t2 :: rest).map String.toList)
      rw [String.data_append, String.data_append, ← ih]
      show (t.data ++ [' ']) ++ (joinTokens (t2 :: rest)).data =
        t.data ++ ' ' :: (joinTokens (t2 :: rest)).data
      simp

theorem tokenize_joinTokens (ts : List String)
    (hv : ∀ t ∈ ts, validTokenChars t.toList = true) : tokenize (joinTokens ts) = ts := by
  unfold tokenize
  rw [joinTokens_toList,
    tokenizeAux_joinCharTokens (ts.map String.toList)
      (by intro u hu
          rcases List.mem_map.mp hu with ⟨s, hs, rfl⟩
          exact hv s hs)]
  induction ts with
  | nil => rfl
  | cons a t ihh =>
    rw [List.map_cons, List.map_cons, ihh (fun x hx => hv x (List.mem_cons_of_mem a hx))]
    rfl

theorem validTokenChars_word (w : List Char) (hne : w ≠ []) (hall : w.all isWordChar = true) :
    validTokenChars w = true := by
  unfold validTokenChars
  rw [hall]
  rcases w with _ | ⟨a, b⟩
  · exact absurd rfl hne
  · rfl

theorem tokenizeAux_tokens_valid (l : List Char) :
    ∀ (cur : List Char), cur.all isWordChar = true →
      ∀ t ∈ tokenizeAux l cur, validTokenChars t = true := by
  induction l with
  | nil =>
    intro cur hcur t ht
    simp only [tokenizeAux] at ht
    split at ht
    · cases ht
    · rename_i hne
      rw [List.mem_singleton.mp ht]
      rcases cur with _ | ⟨c0, cur'⟩
      · simp at hne
      · exact validTokenChars_word _ (by simp) (by rw [List.all_reverse]; exact hcur)
  | cons c rest ih =>
    intro cur hcur t ht
    simp only [tokenizeAux] at ht
    split at ht
    · rename_i hc
      exact ih (c :: cur) (by simp only [List.all_cons, Bool.and_eq_true]; exact ⟨hc, hcur⟩) t ht
    · split at ht
      · split at ht
        · exact ih [] rfl t ht
        · rename_i hne
          rcases List.mem_cons.mp ht with h1 | h1
          · rw [h1]
            rcases cur with _ | ⟨c0, cur'⟩
            · simp at hne
            · exact validTokenChars_word _ (by simp) (by rw [List.all_reverse]; exact hcur)
          · exact ih [] rfl t h1
      · rename_i hc hw
        simp only [Bool.not_eq_true] at hc hw
        have hcval : validTokenChars [c] = true := by
          simp [validTokenChars, hc, hw]
        split at ht
        · rcases List.mem_cons.mp ht with h1 | h1
          · rw [h1]; exact hcval
          · exact ih [] rfl t h1
        · rename_i hne
          rcases List.mem_cons.mp ht with h1 | h1
          · rw [h1]
            rcases cur with _ | ⟨c0, cur'⟩
            · simp at hne
            · exact validTokenChars_word _ (by simp) (by rw [List.all_reverse]; exact hcur)
          · rcases List.mem_cons.mp h1 with h2 | h2
            · rw [h2]; exact hcval
            · exact ih [] rfl t h2

theorem tokenize_valid (s : String) : ∀ t ∈ tokenize s, validTokenChars t.toList = true := by
  intro t ht
  unfold tokenize at ht
  rcases List.mem_map.mp ht with ⟨u, hu, huk⟩
  rw [← huk]
  exact tokenizeAux_tokens_valid s.toList [] rfl u hu

/-! ## Slice and chunk-loop lemmas (C7, C8, C10) -/

theorem pySliceIdx_le (len : Nat) (i : Int) : pySliceIdx len i ≤ len := by
  unfold pySliceIdx
  split <;> omega

theorem mem_pySlice {α : Type} (l : List α) (a b : Int) (x : α) (h : x ∈ pySlice l a b) :
    x ∈ l := by
  unfold pySlice at h
  exact List.mem_of_mem_take (List.mem_of_mem_drop h)

theorem length_pySlice_le {α : Type} (l : List α) (a b m : Int) (ha : 0 ≤ a) (hb0 : 0 ≤ b)
    (hm : 0 ≤ m) (hb : b ≤ a + m) : ((pySlice l a b).length : Int) ≤ m := by
  unfold pySlice
  rw [List.length_drop, List.length_take]
  unfold pySliceIdx
  rw [if_neg (by omega), if_neg (by omega)]
  omega

theorem chunksLoop_chunks_le (tokens : List String) (maxT overlap : Int)
    (hv : ∀ t ∈ tokens, validTokenChars t.toList = true) (hmax : 0 < maxT)
    (hom : overlap < maxT) :
    ∀ (fuel : Nat) (start : Int) (acc out : List String), 0 ≤ start →
      (∀ c ∈ acc, ((tokenize c).length : Int) ≤ maxT) →
      chunksLoop tokens maxT overlap fuel start acc = some out →
      ∀ c ∈ out, ((tokenize c).length : Int) ≤ maxT := by
  intro fuel
  induction fuel with
  | zero =>
    intro start acc out _ _ h
    simp [chunksLoop] at h
  | succ f ih =>
    intro start acc out hs hacc h
    simp only [chunksLoop] at h
    split at h
    · rename_i hlt
      have hchunk : ((tokenize (joinTokens (pySlice tokens start
          (min (start + maxT) (tokens.length : Int))))).length : Int) ≤ maxT := by
        rw [tokenize_joinTokens _ (fun t ht => hv t (mem_pySlice _ _ _ t ht))]
        exact length_pySlice_le tokens start _ maxT hs (by omega) (by omega)
          (min_le_left _ _)
      have hacc' : ∀ c ∈ acc ++ [joinTokens (pySlice tokens start
          (min (start + maxT) (tokens.length : Int)))],
          ((tokenize c).length : Int) ≤ maxT := by
        intro c hcm
        rcases List.mem_append.mp hcm with h1 | h1
        · exact hacc c h1
        · rw [List.mem_singleton.mp h1]
          exact hchunk
      split at h
      · cases h
        exact hacc'
      · rename_i hend
        exact ih (min (start + maxT) (tokens.length : Int) - overlap) _ out (by omega) hacc' h
    · cases h
      exact hacc

theorem chunksLoop_terminates (tokens : List String) (maxT overlap : Int) (ho : 0 ≤ overlap)
    (hom : overlap < maxT) :
    ∀ (fuel : Nat) (start : Int) (acc : List String), 0 < fuel →
      (tokens.length : Int) < start + fuel →
      (chunksLoop tokens maxT overlap fuel start acc).isSome = true := by
  intro fuel
  induction fuel with
  | zero => intro start acc h0 _; omega
  | succ f ih =>
    intro start acc _ hlt
    simp only [chunksLoop]
    split
    · rename_i hstart
      split
      · simp
      · rename_i hend
        refine ih _ _ ?_ ?_
        · omega
        · push_cast at hlt ⊢
          omega
    · simp

theorem chunksLoop_diverges (tokens : List String) (maxT overlap : Int) (h0 : 0 ≤ maxT)
    (h1 : maxT ≤ overlap) (h2 : maxT < (tokens.length : Int)) :
    ∀ (fuel : Nat) (start : Int) (acc : List String), start ≤ 0 →
      chunksLoop tokens maxT overlap fuel start acc = none := by
  intro fuel
  induction fuel with
  | zero => intro start acc _; rfl
  | succ f ih =>
    intro start acc hs
    simp only [chunksLoop]
    rw [if_pos (by omega), if_neg (by omega)]
    exact ih _ _ (by omega)

theorem make_chunks_all_le (text : String) (maxT overlap : Int) (chunks : List String)
    (hmax : 0 < maxT) (hom : overlap < maxT)
    (hc : make_chunks text maxT overlap = some chunks) :
    ∀ c ∈ chunks, ((tokenize c).length : Int) ≤ maxT := by
  simp only [make_chunks] at hc
  split at hc
  · rename_i hle
    cases hc
    intro c hcm
    rw [List.mem_singleton.mp hcm]
    exact hle
  · exact chunksLoop_chunks_le (tokenize text) maxT overlap (tokenize_valid text) hmax hom
      _ 0 [] chunks le_rfl (fun c hc0 => absurd hc0 (List.not_mem_nil c)) hc

theorem chunksLoop_step_continue (tokens : List String) (maxT overlap : Int) (fuel : Nat)
    (start : Int) (acc : List String) (h1 : start < (tokens.length : Int))
    (h2 : min (start + maxT) (tokens.length : Int) < (tokens.length : Int)) :
    chunksLoop tokens maxT overlap (fuel + 1) start acc =
      chunksLoop tokens maxT overlap fuel (min (start + maxT) (tokens.length : Int) - overlap)
        (acc ++ [joinTokens (pySlice tokens start (min (start + maxT) (tokens.length : Int)))]) := by
  simp only [chunksLoop]
  rw [if_pos h1, if_neg (by omega)]

theorem chunksLoop_step_last (tokens : List String) (maxT overlap : Int) (fuel : Nat)
    (start : Int) (acc : List String) (h1 : start < (tokens.length : Int))
    (h2 : (tokens.length : Int) ≤ min (start + maxT) (tokens.length : Int)) :
    chunksLoop tokens maxT overlap (fuel + 1) start acc =
      some (acc ++ [joinTokens (pySlice tokens start (min (start + maxT) (tokens.length : Int)))]) := by
  simp only [chunksLoop]
  rw [if_pos h1, if_pos (by omega)]

theorem chunksLoop_two_windows (tokens : List String) (h : tokens.length = 350) (fuel : Nat) :
    chunksLoop tokens 300 30 (fuel + 2) 0 [] =
      some [joinTokens (pySlice tokens 0 300), joinTokens (pySlice tokens 270 350)] := by
  have hT : (tokens.length : Int) = 350 := by rw [h]; rfl
  have hm1 : min ((0 : Int) + 300) (tokens.length : Int) = 300 := by rw [hT]; norm_num
  have hm2 : min ((270 : Int) + 300) (tokens.length : Int) = 350 := by rw [hT]; norm_num
  show chunksLoop tokens 300 30 ((fuel + 1) + 1) 0 [] = _
  rw [chunksLoop_step_continue tokens 300 30 (fuel + 1) 0 [] (by omega) (by omega)]
  rw [hm1]
  show chunksLoop tokens 300 30 (fuel + 1) 270 [joinTokens (pySlice tokens 0 300)] = _
  rw [chunksLoop_step_last tokens 300 30 fuel 270 _ (by omega) (by omega)]
  rw [hm2]
  rfl

/-- **C7** — chunker size law: under `0 < max_chunk_tokens` and
`0 ≤ overlap_tokens < max_chunk_tokens`, every chunk returned by
`make_chunks` except possibly the last re-tokenizes to at most
`max_chunk_tokens` tokens; and on any input of exactly 350 tokens with
`max = 300`, `overlap = 30`, exactly two chunks are produced, consisting of
token ranges `[0, 300)` and `[270, 350)` of the token sequence. -/
theorem make_chunks_size_law (text : String) (max_chunk_tokens overlap_tokens : Int)
    (chunks : List String) (hmax : 0 < max_chunk_tokens) (ho : 0 ≤ overlap_tokens)
    (hom : overlap_tokens < max_chunk_tokens)
    (hc : make_chunks text max_chunk_tokens overlap_tokens = some chunks) :
    (∀ c ∈ chunks.dropLast, ((tokenize c).length : Int) ≤ max_chunk_tokens) ∧
    ((tokenize text).length = 350 → max_chunk_tokens = 300 → overlap_tokens = 30 →
      chunks = [joinTokens (pySlice (tokenize text) 0 300),
                joinTokens (pySlice (tokenize text) 270 350)]) := by
  constructor
  · intro c hcm
    exact make_chunks_all_le text _ _ chunks hmax hom hc c (List.dropLast_subset _ hcm)
  · intro h350 h300 h30
    subst h300
    subst h30
    simp only [make_chunks] at hc
    have hT : ((tokenize text).length : Int) = 350 := by rw [h350]; rfl
    rw [if_neg (by rw [hT]; norm_num)] at hc
    rw [h350, show (350 : Nat) + 1 = 349 + 2 from rfl,
      chunksLoop_two_windows (tokenize text) h350 349] at hc
    exact (Option.some_inj.mp hc).symm

/-- Witness for C7: the three-token text `"a b c"` with `max = 2`,
`overlap = 1` yields chunks `["a b", "b c"]`, and every non-final chunk has
at most two tokens. -/
theorem make_chunks_size_law_witness :
    make_chunks "a b c" 2 1 = some ["a b", "b c"] ∧
    ∀ c ∈ ["a b", "b c"].dropLast, ((tokenize c).length : Int) ≤ 2 :=
  ⟨by decide,
   (make_chunks_size_law "a b c" 2 1 ["a b", "b c"] (by decide) (by decide) (by decide)
     (by decide)).1⟩

/-- **C8** — round-trip bound: under `0 < max_chunk_tokens` and
`0 ≤ overlap_tokens < max_chunk_tokens`, re-tokenizing any chunk returned by
`make_chunks` yields at most `max_chunk_tokens + overlap_tokens` tokens (in
fact at most `max_chunk_tokens`). -/
theorem make_chunks_roundtrip_bound (text : String) (max_chunk_tokens overlap_tokens : Int)
    (chunks : List String) (hmax : 0 < max_chunk_tokens) (ho : 0 ≤ overlap_tokens)
    (hom : overlap_tokens < max_chunk_tokens)
    (hc : make_chunks text max_chunk_tokens overlap_tokens = some chunks) :
    ∀ c ∈ chunks, ((tokenize c).length : Int) ≤ max_chunk_tokens + overlap_tokens := by
  intro c hcm
  have := make_chunks_all_le text _ _ chunks hmax hom hc c hcm
  omega

/-- Witness for C8 at a concrete input: the first chunk of
`make_chunks "a b c" 2 1 = some ["a b", "b c"]` re-tokenizes within the
bound. -/
theorem make_chunks_roundtrip_bound_witness :
    ((tokenize "a b").length : Int) ≤ 2 + 1 :=
  make_chunks_roundtrip_bound "a b c" 2 1 ["a b", "b c"] (by decide) (by decide) (by decide)
    (by decide) "a b" (by decide)

/-- **C10** — termination of `make_chunks` (the `while` loop is modelled
with fuel; `make_chunks` passes `total_tokens + 1` units and `none` means
the fuel ran out):
with `0 ≤ overlap_tokens < max_chunk_tokens` the loop terminates on every
input (each iteration advances the start index by at least one, so the fuel
suffices); the strict inequality is required: when
`overlap_tokens ≥ max_chunk_tokens` the next start index
`min (start + max) total - overlap` never exceeds `start`, and on any text
with more than `max_chunk_tokens` tokens the loop runs forever — no amount
of fuel makes it finish. -/
theorem make_chunks_termination (text : String) (max_chunk_tokens overlap_tokens : Int) :
    (0 ≤ overlap_tokens → overlap_tokens < max_chunk_tokens →
      (make_chunks text max_chunk_tokens overlap_tokens).isSome = true) ∧
    (max_chunk_tokens ≤ overlap_tokens → ∀ start : Int,
      min (start + max_chunk_tokens) ((tokenize text).length : Int) - overlap_tokens ≤ start) ∧
    (0 ≤ max_chunk_tokens → max_chunk_tokens ≤ overlap_tokens →
      max_chunk_tokens < ((tokenize text).length : Int) →
      (∀ fuel : Nat, chunksLoop (tokenize text) max_chunk_tokens overlap_tokens fuel 0 [] = none) ∧
      make_chunks text max_chunk_tokens overlap_tokens = none) := by
  refine ⟨?_, ?_, ?_⟩
  · intro ho hom
    simp only [make_chunks]
    split
    · rfl
    · exact chunksLoop_terminates (tokenize text) _ _ ho hom _ 0 [] (by omega)
        (by push_cast; omega)
  · intro hmo start
    have := min_le_left (start + max_chunk_tokens) ((tokenize text).length : Int)
    omega
  · intro h0 h1 h2
    refine ⟨fun fuel => chunksLoop_diverges (tokenize text) _ _ h0 h1 h2 fuel 0 [] le_rfl, ?_⟩
    simp only [make_chunks]
    rw [if_neg (by omega)]
    exact chunksLoop_diverges (tokenize text) _ _ h0 h1 h2 _ 0 [] le_rfl

/-- Witness for C10: with `max = 2 > overlap = 1` the chunker finishes on a
three-token text; with `max = overlap = 1` it runs out of any fuel on a
two-token text. -/
theorem make_chunks_termination_witness :
    (make_chunks "a b c" 2 1).isSome = true ∧ make_chunks "a b" 1 1 = none :=
  ⟨(make_chunks_termination "a b c" 2 1).1 (by decide) (by decide),
   ((make_chunks_termination "a b" 1 1).2.2 (by decide) (by decide) (by decide)).2⟩

/-! ## C2: article-number monotonicity -/

theorem flushBuffer_mono (st : ParseState) (doc : List LegalDocumentItem)
    (htext : st.text ≠ "" → st.article_number.isSome = true)
    (hbound : ∀ it ∈ doc, ∀ x, it.article_number = some x →
      ∃ y, st.article_number = some y ∧ x ≤ y)
    (hpair : List.Pairwise (fun i j => articleLe i j = true) doc) :
    (∀ it ∈ flushBuffer doc st, ∀ x, it.article_number = some x →
      ∃ y, st.article_number = some y ∧ x ≤ y) ∧
    List.Pairwise (fun i j => articleLe i j = true) (flushBuffer doc st) := by
  unfold flushBuffer
  split
  · constructor
    · intro it hit x hx
      rcases List.mem_append.mp hit with h1 | h1
      · exact hbound it h1 x hx
      · rw [List.mem_singleton.mp h1] at hx
        exact ⟨x, hx, le_refl x⟩
    · rw [List.pairwise_append]
      refine ⟨hpair, List.pairwise_singleton _ _, ?_⟩
      intro i hi j hj
      rw [List.mem_singleton.mp hj]
      show articleLe i ⟨st.article_number, st.paragraph_number, pyStrip st.text⟩ = true
      unfold articleLe
      cases hia : i.article_number with
      | none => rfl
      | some x =>
        cases hsa : st.article_number with
        | none => rfl
        | some y =>
          rcases hbound i hi x hia with ⟨y', hy', hxy⟩
          rw [hsa] at hy'
          cases hy'
          simpa using hxy
  · exact ⟨hbound, hpair⟩

theorem paragraphOrAppend_mono (rules : ParsingRules) (st : ParseState)
    (doc : List LegalDocumentItem) (chunk : String)
    (doc' : List LegalDocumentItem) (st' : ParseState) (brk : Bool)
    (h : paragraphOrAppend rules st doc chunk = .ok (doc', st', brk))
    (htext : st.text ≠ "" → st.article_number.isSome = true)
    (hflag : st.in_article_section = true → st.article_number.isSome = true)
    (hbound : ∀ it ∈ doc, ∀ x, it.article_number = some x →
      ∃ y, st.article_number = some y ∧ x ≤ y)
    (hpair : List.Pairwise (fun i j => articleLe i j = true) doc) :
    MonoInv st' doc' := by
  have hfl := flushBuffer_mono st doc htext hbound hpair
  unfold paragraphOrAppend at h
  split at h
  · split at h
    · simp at h
    · split at h
      · cases h
        refine ⟨by simp, hflag, ?_, ?_⟩
        · split
          · exact hfl.1
          · exact hbound
        · split
          · exact hfl.2
          · exact hpair
      · cases h
        exact ⟨htext, hflag, hbound, hpair⟩
  · split at h
    · cases h
      rename_i hin
      refine ⟨fun _ => hflag hin, hflag, hbound, hpair⟩
    · cases h
      exact ⟨htext, hflag, hbound, hpair⟩

theorem processChunk_mono_step (rules : ParsingRules) (st : ParseState)
    (doc : List LegalDocumentItem) (chunk : String)
    (doc' : List LegalDocumentItem) (st' : ParseState) (brk : Bool)
    (hart : rules.article_pattern chunk = none)
    (h : processChunk rules st doc chunk = .ok (doc', st', brk))
    (inv : MonoInv st doc) : MonoInv st' doc' := by
  obtain ⟨htext, hflag, hbound, hpair⟩ := inv
  have hfl := flushBuffer_mono st doc htext hbound hpair
  simp only [processChunk, hart, Option.isSome_none, Bool.false_eq_true, if_false] at h
  split at h
  · cases h
    exact ⟨htext, hflag, hbound, hpair⟩
  · split at h
    · cases h
      exact ⟨htext, hflag, hbound, hpair⟩
    · split at h
      · cases h
        exact ⟨htext, fun hh => by simp at hh, hbound, hpair⟩
      · split at h
        · cases h
          exact ⟨htext, hflag, hbound, hpair⟩
        · split at h
          · split at h
            · rename_i hval
              unfold validateArticleMarkerForArticleWoNumber at hval
              simp only [Bool.and_eq_true, Bool.or_eq_true, beq_iff_eq] at hval
              cases h
              have hex : ∀ x, (∃ y, st.article_number = some y ∧ x ≤ y) →
                  x ≤ pyIntUnsafe chunk := by
                intro x hxy
                rcases hxy with ⟨y, hy, hxy⟩
                rcases hval.2 with ⟨hs, he⟩ | ⟨hn, he⟩
                · rw [hy] at he
                  simp only [Option.getD_some] at he
                  omega
                · rw [Option.isNone_iff_eq_none] at hn
                  rw [hn] at hy
                  cases hy
              refine ⟨by simp, by simp, ?_, ?_⟩
              · intro it hit x hx
                refine ⟨pyIntUnsafe chunk, rfl, hex x ?_⟩
                split at hit
                · exact hfl.1 it hit x hx
                · exact hbound it hit x hx
              · split
                · exact hfl.2
                · exact hpair
            · exact paragraphOrAppend_mono rules _ doc _ doc' st' brk h htext hflag hbound hpair
          · exact paragraphOrAppend_mono rules st doc chunk doc' st' brk h htext hflag hbound hpair

theorem parsePage_mono (rules : ParsingRules) (lines : List String) :
    (∀ l ∈ lines, rules.article_pattern l = none) →
    ∀ doc st doc' st', parsePage rules (doc, st) lines = .ok (doc', st') →
      MonoInv st doc → MonoInv st' doc' := by
  induction lines with
  | nil =>
    intro _ doc st doc' st' h inv
    simp only [parsePage, Except.ok.injEq, Prod.mk.injEq] at h
    rw [← h.1, ← h.2]
    exact inv
  | cons c cs ih =>
    intro hart doc st doc' st' h inv
    rw [parsePage] at h
    cases hpc : processChunk rules st doc c with
    | error e => rw [hpc] at h; simp [bind, Except.bind] at h
    | ok x =>
      obtain ⟨doc1, st1, brk⟩ := x
      rw [hpc] at h
      simp only [bind, Except.bind] at h
      have inv1 := processChunk_mono_step rules st doc c doc1 st1 brk
        (hart c (List.mem_cons_self c cs)) hpc inv
      cases brk with
      | true =>
        simp only [if_true] at h
        cases h
        exact inv1
      | false =>
        simp only [Bool.false_eq_true, if_false] at h
        exact ih (fun l hl => hart l (List.mem_cons_of_mem c hl)) doc1 st1 doc' st' h inv1

theorem processPages_mono (rules : ParsingRules) (header : Nat) (pages : List (List String)) :
    (∀ pg ∈ pages, ∀ l ∈ pg, rules.article_pattern l = none) →
    ∀ doc st doc' st', processPages rules header (doc, st) pages = .ok (doc', st') →
      MonoInv st doc → MonoInv st' doc' := by
  induction pages with
  | nil =>
    intro _ doc st doc' st' h inv
    simp only [processPages, Except.ok.injEq, Prod.mk.injEq] at h
    rw [← h.1, ← h.2]
    exact inv
  | cons pg rest ih =>
    intro hart doc st doc' st' h inv
    rw [processPages] at h
    cases hpp : parsePage rules (doc, st) (pg.drop header) with
    | error e => rw [hpp] at h; simp [bind, Except.bind] at h
    | ok acc1 =>
      obtain ⟨doc1, st1⟩ := acc1
      rw [hpp] at h
      simp only [bind, Except.bind] at h
      have inv1 := parsePage_mono rules (pg.drop header)
        (fun l hl => hart pg (List.mem_cons_self pg rest) l (List.mem_of_mem_drop hl))
        doc st doc1 st1 hpp inv
      exact ih (fun p hp => hart p (List.mem_cons_of_mem pg hp)) doc1 st1 doc' st' h inv1

/-- **C2** (amended) — in the item sequence returned by `parse`, article
numbers are non-decreasing *provided no input line matches the
numbered-article pattern*: every article is then introduced through the
validated bare-marker lookahead, which only increments the article number.
Unrestricted, the numbered-article branch performs no sequencing check
(`state.article_number = int(chunk.split()[1])`) and can move the article
number backward, so the claim as stated is refuted by
`parse_articles_can_decrease`. -/
theorem parse_articles_nondecreasing (header : Nat) (pages : List (List String))
    (rules : ParsingRules) (items : List LegalDocumentItem)
    (hart : ∀ pg ∈ pages, ∀ l ∈ pg, rules.article_pattern l = none)
    (h : parse header pages rules = .ok items) :
    List.Pairwise (fun i j => articleLe i j = true) items := by
  unfold parse at h
  cases hpp : processPages rules header ([], initState) pages with
  | error e =>
    rw [hpp] at h
    exact absurd h (by simp [Except.map])
  | ok acc =>
    obtain ⟨doc, st⟩ := acc
    rw [hpp] at h
    replace h : flushBuffer doc st = items := by simpa [Except.map] using h
    have inv0 : MonoInv initState [] := by
      refine ⟨fun hh => absurd rfl hh, fun hh => by simp [initState] at hh,
        fun it hit => absurd hit (List.not_mem_nil it), List.Pairwise.nil⟩
    have inv := processPages_mono rules header pages hart [] initState doc st hpp inv0
    rw [← h]
    exact (flushBuffer_mono st doc inv.1 inv.2.2.1 inv.2.2.2).2

/-- Witness for the amended C2: two articles introduced through the
bare-marker path come out in increasing order. -/
theorem parse_articles_nondecreasing_witness :
    parse 0 [["Pasal", "1", "alpha", "Pasal", "2", "beta"]] testRules =
      .ok [⟨some 1, none, "alpha"⟩, ⟨some 2, none, "beta"⟩] ∧
    List.Pairwise (fun i j => articleLe i j = true)
      [(⟨some 1, none, "alpha"⟩ : LegalDocumentItem), ⟨some 2, none, "beta"⟩] :=
  ⟨by decide,
   parse_articles_nondecreasing 0 [["Pasal", "1", "alpha", "Pasal", "2", "beta"]] testRules
     [⟨some 1, none, "alpha"⟩, ⟨some 2, none, "beta"⟩] (by decide) (by decide)⟩

/-- **C2** counterexample — a numbered article marker carries no sequencing
check, so `"Pasal 10"` followed by `"Pasal 3"` emits items with article
numbers `10` then `3`: the returned sequence is not non-decreasing. -/
theorem parse_articles_can_decrease :
    parse 0 [["Pasal 10", "alpha", "Pasal 3", "beta"]] testRules =
      .ok [⟨some 10, none, "alpha"⟩, ⟨some 3, none, "beta"⟩] ∧
    ¬ List.Pairwise (fun i j => articleLe i j = true)
        [(⟨some 10, none, "alpha"⟩ : LegalDocumentItem), ⟨some 3, none, "beta"⟩] := by
  constructor
  · decide
  · decide

/-! ## C4: the paragraph-gap check -/

theorem lookupAssoc_eq_none (l : List (Option Int × List Int)) (k : Option Int)
    (h : k ∉ l.map Prod.fst) : lookupAssoc l k = none := by
  induction l with
  | nil => rfl
  | cons kv rest ih =>
    obtain ⟨k0, v0⟩ := kv
    simp only [List.map_cons, List.mem_cons] at h
    push_neg at h
    simp only [lookupAssoc]
    rw [if_neg (fun he => h.1 he.symm)]
    exact ih h.2

theorem lookupAssoc_addToGroup (g : List (Option Int × List Int)) (k k' : Option Int) (v : Int) :
    lookupAssoc (addToGroup g k v) k' =
      if k' = k then some ((lookupAssoc g k).getD [] ++ [v]) else lookupAssoc g k' := by
  induction g with
  | nil =>
    by_cases hk : k' = k
    · subst hk
      simp [addToGroup, lookupAssoc]
    · simp [addToGroup, lookupAssoc, hk, Ne.symm hk]
  | cons p rest ih =>
    obtain ⟨k0, vs0⟩ := p
    simp only [addToGroup]
    by_cases h0 : k0 = k
    · subst h0
      by_cases hk : k' = k0
      · subst hk
        simp [lookupAssoc]
      · have h2 : k0 ≠ k' := fun he => hk he.symm
        simp [lookupAssoc, hk, h2]
    · rw [if_neg h0]
      by_cases hk' : k' = k
      · subst hk'
        simp only [lookupAssoc, if_pos rfl]
        rw [if_neg (fun he => h0 he), if_neg (fun he => h0 he)]
        rw [ih]
        simp
      · by_cases h1 : k0 = k'
        · subst h1
          simp [lookupAssoc, hk']
        · simp only [lookupAssoc]
          rw [if_neg h1, if_neg h1, ih, if_neg hk', if_neg hk']

theorem lookupAssoc_collect_fold (doc : List LegalDocumentItem) :
    ∀ (g : List (Option Int × List Int)) (a : Int),
      lookupAssoc (doc.foldl (fun groups it =>
        if pyTruthyOptInt it.paragraph_number then
          addToGroup groups it.article_number (it.paragraph_number.getD 0)
        else groups) g) (some a) =
      (if observedParas doc a = [] then lookupAssoc g (some a)
       else some ((lookupAssoc g (some a)).getD [] ++ observedParas doc a)) := by
  induction doc with
  | nil => intro g a; simp [observedParas]
  | cons it rest ih =>
    intro g a
    rw [List.foldl_cons]
    by_cases ht : pyTruthyOptInt it.paragraph_number = true
    · rw [if_pos ht]
      by_cases ha : it.article_number = some a
      · have hobs : observedParas (it :: rest) a =
            it.paragraph_number.getD 0 :: observedParas rest a := by
          simp [observedParas, List.filterMap_cons, ha, ht]
        rw [ih (addToGroup g it.article_number (it.paragraph_number.getD 0)) a, hobs]
        rw [ha, lookupAssoc_addToGroup g (some a) (some a) _, if_pos rfl]
        by_cases ho : observedParas rest a = []
        · simp [ho]
        · simp [ho]
      · have hobs : observedParas (it :: rest) a = observedParas rest a := by
          simp [observedParas, List.filterMap_cons, ha]
        rw [ih (addToGroup g it.article_number (it.paragraph_number.getD 0)) a, hobs,
          lookupAssoc_addToGroup g it.article_number (some a) _,
          if_neg (show ¬ some a = it.article_number from fun he => ha he.symm)]
    · rw [if_neg ht]
      have hobs : observedParas (it :: rest) a = observedParas rest a := by
        have ht' : pyTruthyOptInt it.paragraph_number = false := by
          rcases Bool.eq_false_or_eq_true (pyTruthyOptInt it.paragraph_number) with h | h
          · exact absurd h ht
          · exact h
        simp [observedParas, List.filterMap_cons, ht']
      rw [ih g a, hobs]

theorem lookupAssoc_collectParas (doc : List LegalDocumentItem) (a : Int) :
    lookupAssoc (collectParas doc) (some a) =
      (if observedParas doc a = [] then none else some (observedParas doc a)) := by
  unfold collectParas
  rw [lookupAssoc_collect_fold doc [] a]
  by_cases ho : observedParas doc a = [] <;> simp [ho, lookupAssoc]

theorem addToGroup_keys (g : List (Option Int × List Int)) (k : Option Int) (v : Int) :
    (addToGroup g k v).map Prod.fst =
      (if k ∈ g.map Prod.fst then g.map Prod.fst else g.map Prod.fst ++ [k]) := by
  induction g with
  | nil => simp [addToGroup]
  | cons p rest ih =>
    obtain ⟨k0, vs0⟩ := p
    simp only [addToGroup]
    by_cases h0 : k0 = k
    · subst h0
      simp
    · rw [if_neg h0]
      simp only [List.map_cons, ih, List.mem_cons]
      by_cases hm : k ∈ rest.map Prod.fst
      · simp [hm, h0]
      · have h0' : ¬ k = k0 := fun he => h0 he.symm
        simp [hm, h0']

theorem addToGroup_keys_nodup (g : List (Option Int × List Int)) (k : Option Int) (v : Int)
    (h : (g.map Prod.fst).Nodup) : ((addToGroup g k v).map Prod.fst).Nodup := by
  rw [addToGroup_keys]
  split
  · exact h
  · rename_i hm
    rw [List.nodup_append]
    refine ⟨h, List.nodup_singleton k, ?_⟩
    intro a ha hb
    rw [List.mem_singleton.mp hb] at ha
    exact hm ha

theorem collect_fold_keys_nodup (doc : List LegalDocumentItem) :
    ∀ (g : List (Option Int × List Int)), (g.map Prod.fst).Nodup →
      ((doc.foldl (fun groups it =>
        if pyTruthyOptInt it.paragraph_number then
          addToGroup groups it.article_number (it.paragraph_number.getD 0)
        else groups) g).map Prod.fst).Nodup := by
  induction doc with
  | nil => intro g h; exact h
  | cons it rest ih =>
    intro g h
    rw [List.foldl_cons]
    split
    · exact ih _ (addToGroup_keys_nodup g _ _ h)
    · exact ih g h

theorem collectParas_keys_nodup (doc : List LegalDocumentItem) :
    ((collectParas doc).map Prod.fst).Nodup :=
  collect_fold_keys_nodup doc [] (by simp)

theorem collect_fold_keys_isSome (doc : List LegalDocumentItem)
    (hall : ∀ it ∈ doc, it.article_number.isSome = true) :
    ∀ (g : List (Option Int × List Int)), (∀ key ∈ g.map Prod.fst, key.isSome = true) →
      ∀ key ∈ ((doc.foldl (fun groups it =>
        if pyTruthyOptInt it.paragraph_number then
          addToGroup groups it.article_number (it.paragraph_number.getD 0)
        else groups) g).map Prod.fst), key.isSome = true := by
  induction doc with
  | nil => intro g hg; exact hg
  | cons it rest ih =>
    intro g hg
    rw [List.foldl_cons]
    have hall' := fun x hx => hall x (List.mem_cons_of_mem it hx)
    split
    · refine ih hall' _ ?_
      intro key hkey
      rw [addToGroup_keys] at hkey
      split at hkey
      · exact hg key hkey
      · rcases List.mem_append.mp hkey with h1 | h1
        · exact hg key h1
        · rw [List.mem_singleton.mp h1]
          exact hall it (List.mem_cons_self it rest)
    · exact ih hall' g hg

theorem collectParas_keys_isSome (doc : List LegalDocumentItem)
    (hall : ∀ it ∈ doc, it.article_number.isSome = true) :
    ∀ key ∈ (collectParas doc).map Prod.fst, key.isSome = true :=
  collect_fold_keys_isSome doc hall [] (fun key hkey => absurd hkey (List.not_mem_nil key))

theorem lookupAssoc_filterMap_keyed (step : List Int → Option (List Int))
    (l : List (Option Int × List Int)) (k : Option Int) :
    (l.map Prod.fst).Nodup →
    lookupAssoc (l.filterMap (fun kv => (step kv.2).map (fun m => (kv.1, m)))) k =
      (lookupAssoc l k).bind step := by
  induction l with
  | nil => intro _; rfl
  | cons kv rest ih =>
    intro hn
    obtain ⟨k0, vs0⟩ := kv
    simp only [List.map_cons, List.nodup_cons] at hn
    rw [List.filterMap_cons]
    cases hs : step vs0 with
    | none =>
      simp only [hs, Option.map_none']
      rw [ih hn.2]
      simp only [lookupAssoc]
      by_cases hk : k0 = k
      · rw [if_pos hk]
        rw [← hk, lookupAssoc_eq_none rest k0 hn.1]
        simp [hs]
      · rw [if_neg hk]
    | some m =>
      simp only [hs, Option.map_some']
      simp only [lookupAssoc]
      by_cases hk : k0 = k
      · rw [if_pos hk, if_pos hk]
        show some m = step vs0
        rw [hs]
      · rw [if_neg hk, if_neg hk, ih hn.2]

theorem filterMap_keyed_keys_sublist (step : List Int → Option (List Int))
    (l : List (Option Int × List Int)) :
    ((l.filterMap (fun kv => (step kv.2).map (fun m => (kv.1, m)))).map Prod.fst).Sublist
      (l.map Prod.fst) := by
  induction l with
  | nil => simp
  | cons kv rest ih =>
    obtain ⟨k0, vs0⟩ := kv
    rw [List.filterMap_cons]
    cases hs : step vs0 with
    | none =>
      simp only [hs, Option.map_none', List.map_cons]
      exact ih.cons k0
    | some m =>
      simp only [hs, Option.map_some', List.map_cons]
      exact ih.cons₂ k0

theorem mem_insertSorted {α : Type} (le : α → α → Bool) (x y : α) (l : List α) :
    y ∈ insertSorted le x l ↔ y ∈ x :: l := by
  induction l with
  | nil => simp [insertSorted]
  | cons z zs ih =>
    simp only [insertSorted]
    split
    · exact Iff.rfl
    · simp only [List.mem_cons] at ih ⊢
      rw [ih]
      tauto

theorem mem_sortBy {α : Type} (le : α → α → Bool) (y : α) (l : List α) :
    y ∈ sortBy le l ↔ y ∈ l := by
  induction l with
  | nil => exact Iff.rfl
  | cons x xs ih =>
    simp only [sortBy, mem_insertSorted, List.mem_cons, ih]

theorem lookupAssoc_insertSorted (le : (Option Int × List Int) → (Option Int × List Int) → Bool)
    (x : Option Int × List Int) (l : List (Option Int × List Int)) (k : Option Int)
    (hx : x.1 ∉ l.map Prod.fst) :
    lookupAssoc (insertSorted le x l) k =
      (if x.1 = k then some x.2 else lookupAssoc l k) := by
  induction l with
  | nil =>
    obtain ⟨k0, v0⟩ := x
    simp [insertSorted, lookupAssoc]
  | cons z zs ih =>
    obtain ⟨k0, v0⟩ := x
    obtain ⟨k1, v1⟩ := z
    simp only [List.map_cons, List.mem_cons] at hx
    push_neg at hx
    simp only [insertSorted]
    split
    · rfl
    · simp only [lookupAssoc]
      by_cases h1 : k1 = k
      · rw [if_pos h1, if_neg (show ¬ (k0, v0).1 = k from
          fun he => hx.1 (by rw [h1]; exact he)), if_pos h1]
      · rw [if_neg h1, if_neg h1, ih hx.2]

theorem lookupAssoc_sortBy (le : (Option Int × List Int) → (Option Int × List Int) → Bool)
    (l : List (Option Int × List Int)) (k : Option Int)
    (hn : (l.map Prod.fst).Nodup) :
    lookupAssoc (sortBy le l) k = lookupAssoc l k := by
  induction l with
  | nil => rfl
  | cons x xs ih =>
    simp only [List.map_cons, List.nodup_cons] at hn
    simp only [sortBy]
    rw [lookupAssoc_insertSorted le x (sortBy le xs) k (by
      intro hmem
      rcases List.mem_map.mp hmem with ⟨kv, hkv, heq⟩
      exact hn.1 (List.mem_map.mpr ⟨kv, (mem_sortBy le kv xs).mp hkv, heq⟩))]
    rw [ih hn.2]
    obtain ⟨k0, v0⟩ := x
    simp only [lookupAssoc]

theorem addToGroup_ne_nil (g : List (Option Int × List Int)) (k : Option Int) (v : Int) :
    addToGroup g k v ≠ [] := by
  cases g with
  | nil => simp [addToGroup]
  | cons p r =>
    obtain ⟨k0, v0⟩ := p
    simp only [addToGroup]
    split <;> simp

theorem collect_fold_ne_nil (doc : List LegalDocumentItem) :
    ∀ (g : List (Option Int × List Int)),
      (g ≠ [] ∨ ∃ it ∈ doc, pyTruthyOptInt it.paragraph_number = true) →
      doc.foldl (fun groups it =>
        if pyTruthyOptInt it.paragraph_number then
          addToGroup groups it.article_number (it.paragraph_number.getD 0)
        else groups) g ≠ [] := by
  induction doc with
  | nil =>
    intro g h
    rcases h with h | ⟨it, hit, _⟩
    · exact h
    · exact absurd hit (List.not_mem_nil it)
  | cons it rest ih =>
    intro g h
    rw [List.foldl_cons]
    by_cases ht : pyTruthyOptInt it.paragraph_number = true
    · rw [if_pos ht]
      exact ih _ (Or.inl (addToGroup_ne_nil g _ _))
    · rw [if_neg ht]
      refine ih g ?_
      rcases h with h | ⟨x, hx, hxt⟩
      · exact Or.inl h
      · rcases List.mem_cons.mp hx with h1 | h1
        · exact absurd (h1 ▸ hxt) ht
        · exact Or.inr ⟨x, h1, hxt⟩

/-- **C4** (amended) — `check_missing_paragraphs` raises the
"empty paragraph set" `ValueError` *iff* every item's paragraph number is
falsy — null **or zero** (Python truthiness is used, so an explicit
paragraph number `0` is treated like null; `check_missing_paragraphs_zero`
refutes the claim's "null"-only reading).  When some item carries a truthy
paragraph number and (as in all parser output) the article numbers are
non-null, the check returns a map that, for each article with at least one
truthy paragraph number, associates exactly the values in
`1..max(observed)` that were not observed (an article with no gap, or with
no truthy paragraph number at all, is absent from the map). -/
theorem check_missing_paragraphs_spec (doc : List LegalDocumentItem) :
    (check_missing_paragraphs doc =
        .error (.valueError "No article found. Unable to check missing paragraphs.") ↔
      ∀ it ∈ doc, pyTruthyOptInt it.paragraph_number = false) ∧
    ((∀ it ∈ doc, it.article_number.isSome = true) →
      (∃ it ∈ doc, pyTruthyOptInt it.paragraph_number = true) →
      ∃ m, check_missing_paragraphs doc = .ok m ∧
        ∀ a : Int,
          (observedParas doc a ≠ [] →
            (lookupAssoc m (some a)).getD [] = specMissingParagraphs doc a) ∧
          (observedParas doc a = [] → lookupAssoc m (some a) = none)) := by
  have hkey : (fun kv : Option Int × List Int =>
      if kv.2.isEmpty then none
      else if ((intRange1 (maxIntList kv.2)).filter (fun x => !kv.2.contains x)).isEmpty then
        none
      else some (kv.1, (intRange1 (maxIntList kv.2)).filter (fun x => !kv.2.contains x))) =
    (fun kv : Option Int × List Int =>
      ((fun vs : List Int =>
        if vs.isEmpty then none
        else if ((intRange1 (maxIntList vs)).filter (fun x => !vs.contains x)).isEmpty then none
        else some ((intRange1 (maxIntList vs)).filter (fun x => !vs.contains x))) kv.2).map
          (fun m => (kv.1, m))) := by
    funext kv
    by_cases h1 : kv.2.isEmpty = true
    · simp only [if_pos h1, Option.map_none']
    · by_cases h2 : ((intRange1 (maxIntList kv.2)).filter (fun x => !kv.2.contains x)).isEmpty = true
      · simp only [if_neg h1, if_pos h2, Option.map_none']
      · simp only [if_neg h1, if_neg h2, Option.map_some']
  constructor
  · constructor
    · intro herr
      by_contra hno
      push_neg at hno
      obtain ⟨it, hit, hne⟩ := hno
      have ht : pyTruthyOptInt it.paragraph_number = true := by
        rcases Bool.eq_false_or_eq_true (pyTruthyOptInt it.paragraph_number) with h | h
        · exact h
        · exact absurd h hne
      have hcol : collectParas doc ≠ [] := collect_fold_ne_nil doc [] (Or.inr ⟨it, hit, ht⟩)
      simp only [check_missing_paragraphs] at herr
      rw [if_neg (fun hc => hcol (by simpa using hc))] at herr
      simp only [pySortedDictByKey] at herr
      split at herr
      · simp at herr
      · simp at herr
    · exact check_missing_paragraphs_error_of_all_falsy doc
  · intro hall hex
    obtain ⟨it0, hit0, ht0⟩ := hex
    have hcol : collectParas doc ≠ [] := collect_fold_ne_nil doc [] (Or.inr ⟨it0, hit0, ht0⟩)
    have hnodup := collectParas_keys_nodup doc
    have hsome := collectParas_keys_isSome doc hall
    have hsub := filterMap_keyed_keys_sublist
      (fun vs : List Int =>
        if vs.isEmpty then none
        else if ((intRange1 (maxIntList vs)).filter (fun x => !vs.contains x)).isEmpty then none
        else some ((intRange1 (maxIntList vs)).filter (fun x => !vs.contains x)))
      (collectParas doc)
    simp only [check_missing_paragraphs]
    rw [if_neg (fun hc => hcol (by simpa using hc))]
    rw [hkey]
    have hAnodup : (((collectParas doc).filterMap (fun kv =>
        ((fun vs : List Int =>
          if vs.isEmpty then none
          else if ((intRange1 (maxIntList vs)).filter (fun x => !vs.contains x)).isEmpty then none
          else some ((intRange1 (maxIntList vs)).filter (fun x => !vs.contains x))) kv.2).map
            (fun m => (kv.1, m)))).map Prod.fst).Nodup := hnodup.sublist hsub
    have hnone : (((collectParas doc).filterMap (fun kv =>
        ((fun vs : List Int =>
          if vs.isEmpty then none
          else if ((intRange1 (maxIntList vs)).filter (fun x => !vs.contains x)).isEmpty then none
          else some ((intRange1 (maxIntList vs)).filter (fun x => !vs.contains x))) kv.2).map
            (fun m => (kv.1, m)))).any (fun kv => kv.1.isNone)) = false := by
      rw [List.any_eq_false]
      intro kv hkv
      have hks := hsome kv.1 (hsub.subset (List.mem_map.mpr ⟨kv, hkv, rfl⟩))
      rw [Option.isSome_iff_exists] at hks
      obtain ⟨v, hv⟩ := hks
      simp [hv]
    simp only [pySortedDictByKey]
    rw [hnone]
    simp only [Bool.false_and, Bool.false_eq_true, if_false]
    refine ⟨_, rfl, ?_⟩
    intro a
    have hlk := lookupAssoc_filterMap_keyed
      (fun vs : List Int =>
        if vs.isEmpty then none
        else if ((intRange1 (maxIntList vs)).filter (fun x => !vs.contains x)).isEmpty then none
        else some ((intRange1 (maxIntList vs)).filter (fun x => !vs.contains x)))
      (collectParas doc) (some a) hnodup
    rw [lookupAssoc_sortBy _ _ (some a) hAnodup, hlk, lookupAssoc_collectParas doc a]
    by_cases ho : observedParas doc a = []
    · rw [if_pos ho]
      exact ⟨fun hne => absurd ho hne, fun _ => rfl⟩
    · rw [if_neg ho]
      constructor
      · intro _
        show ((if (observedParas doc a).isEmpty then none
          else if ((intRange1 (maxIntList (observedParas doc a))).filter
              (fun x => !(observedParas doc a).contains x)).isEmpty then none
          else some ((intRange1 (maxIntList (observedParas doc a))).filter
              (fun x => !(observedParas doc a).contains x))).getD []) = _
        rw [if_neg (fun hc => ho (by simpa using hc))]
        by_cases hm : ((intRange1 (maxIntList (observedParas doc a))).filter
            (fun x => !(observedParas doc a).contains x)).isEmpty = true
        · rw [if_pos hm]
          show [] = specMissingParagraphs doc a
          rw [show specMissingParagraphs doc a = (intRange1 (maxIntList (observedParas doc a))).filter
            (fun x => !(observedParas doc a).contains x) from rfl]
          exact (List.isEmpty_eq_true.mp hm).symm
        · rw [if_neg hm]
          rfl
      · intro hcontra
        exact absurd hcontra ho

/-- Witness for the amended C4: on a document with paragraphs `[1, 2, 6]`
for article 2 and none for article 3, the check succeeds and reports, for
each article with observed paragraphs, exactly the unobserved values in
`1..max` (here `[3, 4, 5]` for article 2), omitting article 3. -/
theorem check_missing_paragraphs_spec_witness :
    ∃ m, check_missing_paragraphs
        [(⟨some 2, some 1, "t"⟩ : LegalDocumentItem), ⟨some 2, some 2, "u"⟩,
         ⟨some 2, some 6, "w"⟩, ⟨some 3, none, "v"⟩] = .ok m ∧
      ∀ a : Int,
        (observedParas [(⟨some 2, some 1, "t"⟩ : LegalDocumentItem), ⟨some 2, some 2, "u"⟩,
            ⟨some 2, some 6, "w"⟩, ⟨some 3, none, "v"⟩] a ≠ [] →
          (lookupAssoc m (some a)).getD [] =
            specMissingParagraphs [(⟨some 2, some 1, "t"⟩ : LegalDocumentItem),
              ⟨some 2, some 2, "u"⟩, ⟨some 2, some 6, "w"⟩, ⟨some 3, none, "v"⟩] a) ∧
        (observedParas [(⟨some 2, some 1, "t"⟩ : LegalDocumentItem), ⟨some 2, some 2, "u"⟩,
            ⟨some 2, some 6, "w"⟩, ⟨some 3, none, "v"⟩] a = [] →
          lookupAssoc m (some a) = none) :=
  (check_missing_paragraphs_spec
    [(⟨some 2, some 1, "t"⟩ : LegalDocumentItem), ⟨some 2, some 2, "u"⟩,
     ⟨some 2, some 6, "w"⟩, ⟨some 3, none, "v"⟩]).2 (by decide)
    ⟨⟨some 2, some 1, "t"⟩, by decide, by decide⟩

/-- **C4** counterexample — the "if and only if every paragraph number is
null" reading fails: an item whose paragraph number is `0` (not null) still
makes `check_missing_paragraphs` raise the empty-set error, because the code
tests Python truthiness (`if item and item.paragraph_number:`), under which
`0` is falsy. -/
theorem check_missing_paragraphs_raises_on_zero :
    check_missing_paragraphs [(⟨some 1, some 0, "t"⟩ : LegalDocumentItem)] =
      .error (.valueError "No article found. Unable to check missing paragraphs.") ∧
    ¬ ∀ it ∈ [(⟨some 1, some 0, "t"⟩ : LegalDocumentItem)], it.paragraph_number = none := by
  constructor
  · decide
  · decide
